import Mathlib

/-!
Verification development for the entity/scene-graph core of the
momentumengine repository (src/classes/entity.js, here `src/unnamed/part_000`).

The JavaScript code is shallowly embedded as follows:
- JS numbers are a type `K` carrying a linear ordered commutative ring and
  a division (every operation entity.js performs on numbers), instantiated at
  `ℝ` — the real-valued idealisation of JS doubles — for the field-force
  claims, and at `ℤ` for concrete executable runs that never divide (integer
  inputs, no force evaluation), where kernel evaluation is available.  `Math.pow(x, 1.5)`
  is passed in as an explicit function `p15 : K → K`; at `K = ℝ` it is
  instantiated with `Real.rpow · 1.5`, which is the real-valued semantics of
  the JS call.  Lean's total division (`x / 0 = 0`) stands in for the JS
  non-finite results on colocated fields; no theorem below touches that case.
- The mutable object graph is a heap `ℕ → EntityData K` inside a state `St`
  which also carries the single scene/game object (frame counter and render
  statistic, modelled from the spec's scene contract, the game object itself
  not being part of entity.js), the current wall-clock time (`Date.now()`),
  and an event trace used purely as instrumentation: an event is appended
  when a node's own update step runs, when an update/render hook is invoked,
  and when a node's render traversal is entered.
- User-supplied `update`/`render` hooks are modelled by their returned value
  only, as a `TriVal` (truthy / defined-falsy / undefined); hook side effects
  play no role in any claim.
- Recursive traversals (`_updateEntity`, `_renderEntity`, `_updateGame`,
  `_calculateRelativePos`) take a fuel parameter; `none` models a JS run that
  does not complete normally (a thrown TypeError, or unbounded recursion on a
  cyclic heap, which in JS is a stack overflow).
-/

namespace Momentum

/-- Truthiness class of a JS value as far as the traversal protocol observes
it: truthy, defined-but-falsy, or undefined. -/
inductive TriVal : Type
  | truthy
  | falsy
  | undef
deriving DecidableEq, Repr

/-- Instrumentation events: `tick i` marks entry into entity `i`'s own
update step, `uhook i` an invocation of its update hook, `rvisit i` entry
into its render traversal, `rhook i` an invocation of its render hook. -/
inductive Ev : Type
  | tick (i : ℕ)
  | uhook (i : ℕ)
  | rvisit (i : ℕ)
  | rhook (i : ℕ)
deriving DecidableEq, Repr

/-- Modelled from the spec: vector2d.js is not under src; per spec section
4.1 a Vector2D is a mutable pair of numbers.  In this pure embedding the
in-place `add`/`multiply` become value-level operations and every write to a
vector field is an explicit record update, so `clone` needs no counterpart. -/
structure Vec2 (K : Type) : Type where
  x : K
  y : K
deriving DecidableEq, Repr

/-- Modelled from the spec: Vector2D.add (in-place componentwise sum). -/
def Vec2.add {K : Type} [Add K] (a b : Vec2 K) : Vec2 K :=
  { x := a.x + b.x, y := a.y + b.y }

/-- Modelled from the spec: Vector2D.multiply (in-place scalar scale). -/
def Vec2.mul {K : Type} [Mul K] (a : Vec2 K) (s : K) : Vec2 K :=
  { x := a.x * s, y := a.y * s }

/-- Modelled from the spec: Vector2D.dot (pure scalar reducer). -/
def Vec2.dot {K : Type} [Add K] [Mul K] (a b : Vec2 K) : K :=
  a.x * b.x + a.y * b.y

/-- Per-entity state, one record per constructed Entity object.  Field names
follow entity.js (`pos`, `velocity`, `acceleration`, `size`, `rotation`,
`display`, `fields`, `children`, `_relativePos`, `_lastRelativePosCalculated`,
`_game`, `_parent`, `_creationTime`, `timeToLive`).  `fields` and `children`
hold heap references.  `game` is `true` when `_game` references the scene and
`false` when it is `null` (there is one scene object, stored in `St`).
`mass` is the duck-typed Field attribute read by `_calculateFields`; the
entity.js constructor leaves it undefined, and every theorem that consumes it
sets it explicitly.  The free-form `state` map and the unused
`_lastRelativeSizeCalculated` stamp participate in no code path of the
claims and are not modelled.  `updateHook`/`renderHook` model the optional
user hooks by returned truthiness. -/
structure EntityData (K : Type) : Type where
  pos : Vec2 K
  velocity : Vec2 K
  acceleration : Vec2 K
  size : Vec2 K
  rotation : K
  display : Bool
  fields : List ℕ
  children : List ℕ
  relativePos : Vec2 K
  lastRelativePosCalculated : ℕ
  game : Bool
  parent : Option ℕ
  creationTime : K
  timeToLive : Option K
  mass : K
  updateHook : Option TriVal
  renderHook : Option TriVal
deriving DecidableEq, Repr

/-- Modelled from the spec: the scene/game object is external to entity.js;
per the spec's scene contract it supplies a monotone `frameCounter` and
accumulates `_lastFrameTotalRenders`. -/
structure Scene : Type where
  frameCounter : ℕ
  lastFrameTotalRenders : ℕ
deriving DecidableEq, Repr

/-- Whole-program state: the heap of entities, the one scene object, the
current time (what `Date.now()` returns), and the instrumentation trace. -/
structure St (K : Type) : Type where
  entities : ℕ → EntityData K
  scene : Scene
  now : K
  trace : List Ev

variable {K : Type} [LinearOrderedCommRing K] [Div K]

/-- Append an instrumentation event. -/
def pushEv (st : St K) (e : Ev) : St K :=
  { st with trace := st.trace ++ [e] }

/-- Overwrite the heap cell of entity `i`. -/
def setEnt (st : St K) (i : ℕ) (d : EntityData K) : St K :=
  { st with entities := Function.update st.entities i d }

/-- Apply a field update to the heap cell of entity `i`. -/
def modifyEnt (st : St K) (i : ℕ) (f : EntityData K → EntityData K) : St K :=
  setEnt st i (f (st.entities i))

/-- Entity constructor (`new Entity(x, y)` at current time `now`):
zero velocity/acceleration/size, `display = true`, empty `fields` and
`children`, `_relativePos = this.pos.clone()`, stamp 0, no game, no parent,
no hooks, `timeToLive` undefined. -/
def mkEntity (x y : K) (now : K) : EntityData K :=
  { pos := { x := x, y := y }
    velocity := { x := 0, y := 0 }
    acceleration := { x := 0, y := 0 }
    size := { x := 0, y := 0 }
    rotation := 0
    display := true
    fields := []
    children := []
    relativePos := { x := x, y := y }
    lastRelativePosCalculated := 0
    game := false
    parent := none
    creationTime := now
    timeToLive := none
    mass := 0
    updateHook := none
    renderHook := none }

/-- Remove the first occurrence of `c` (identity comparison) from a child
list, reporting whether one was found — the splice loop of
`detachChildEntity`. -/
def removeFirst : List ℕ → ℕ → List ℕ × Bool
  | [], _ => ([], false)
  | x :: xs, c =>
    if x = c then (xs, true)
    else
      let r := removeFirst xs c
      (x :: r.1, r.2)

/-- detachChildEntity(child): identity-based linear search of `p`'s child
list, removes the first match, returns whether a match was found.  It does
not touch the removed node's `_parent` or `_game`. -/
def detachChildEntity (st : St K) (p c : ℕ) : St K × Bool :=
  let r := removeFirst (st.entities p).children c
  (modifyEnt st p (fun d => { d with children := r.1 }), r.2)

/-- Recursive `_updateGame(game)`: set this node's `_game`, then recurse into
the children.  Fuel bounds the recursion depth. -/
def updateGame : ℕ → St K → ℕ → Bool → Option (St K)
  | 0, _, _, _ => none
  | fuel + 1, st, i, g =>
    let st1 := modifyEnt st i fun d => { d with game := g }
    (st1.entities i).children.foldl
      (fun r c =>
        match r with
        | none => none
        | some s => updateGame fuel s c g)
      (some st1)

/-- addChildEntity(child): `child._updateGame(this._game)`, then
`child._parent = this`, then `this.children.push(child)`. -/
def addChildEntity (fuel : ℕ) (st : St K) (p c : ℕ) : Option (St K) :=
  match updateGame fuel st c ((st.entities p).game) with
  | none => none
  | some st1 =>
    let st2 := modifyEnt st1 c fun d => { d with parent := some p }
    some (modifyEnt st2 p fun d => { d with children := d.children ++ [c] })

/-- createChildEntity(): allocate `new Entity()` at an unused heap index
`fresh`, then the same three steps as addChildEntity performs. -/
def createChildEntity (fuel : ℕ) (st : St K) (p fresh : ℕ) : Option (St K) :=
  let st0 := setEnt st fresh (mkEntity 0 0 st.now)
  match updateGame fuel st0 fresh ((st0.entities p).game) with
  | none => none
  | some st1 =>
    let st2 := modifyEnt st1 fresh fun d => { d with parent := some p }
    some (modifyEnt st2 p fun d => { d with children := d.children ++ [fresh] })

/-- `_calculateRelativePos()`.  If `this._game` is set and the stamp is older
than the scene's frame counter: with a parent, assign
`this._relativePos.x = this.pos.x + this._parent.relativeLeft` and then
`this._relativePos.y = this.pos.y + this._parent.relativeTop` (two separate
accessor calls on the parent, each itself a `_calculateRelativePos`, threaded
in JS evaluation order), without a parent copy `this.pos` in, then stamp with
the current frame counter.  In every case return `this._relativePos` as it
stands at the end.  Fuel bounds the parent-chain recursion. -/
def calcRelativePos : ℕ → St K → ℕ → Option (St K × Vec2 K)
  | 0, _, _ => none
  | fuel + 1, st, i =>
    let e := st.entities i
    if e.game = true ∧ e.lastRelativePosCalculated < st.scene.frameCounter then
      match e.parent with
      | some p =>
        match calcRelativePos fuel st p with
        | none => none
        | some (st1, v1) =>
          let stx := modifyEnt st1 i fun d =>
            { d with relativePos := { d.relativePos with x := (st.entities i).pos.x + v1.x } }
          match calcRelativePos fuel stx p with
          | none => none
          | some (st2, v2) =>
            let sty := modifyEnt st2 i fun d =>
              { d with relativePos := { d.relativePos with y := (stx.entities i).pos.y + v2.y } }
            let stf := modifyEnt sty i fun d =>
              { d with lastRelativePosCalculated := sty.scene.frameCounter }
            some (stf, (stf.entities i).relativePos)
      | none =>
        let stx := modifyEnt st i fun d =>
          { d with relativePos := { d.relativePos with x := d.pos.x } }
        let sty := modifyEnt stx i fun d =>
          { d with relativePos := { d.relativePos with y := d.pos.y } }
        let stf := modifyEnt sty i fun d =>
          { d with lastRelativePosCalculated := sty.scene.frameCounter }
        some (stf, (stf.entities i).relativePos)
    else
      some (st, e.relativePos)

/-- Setter `left = val`: assign `this.pos.x`, then eagerly refresh the cached
x through the parent if one exists. -/
def setLeft (fuel : ℕ) (st : St K) (i : ℕ) (val : K) : Option (St K) :=
  let st0 := modifyEnt st i fun d => { d with pos := { d.pos with x := val } }
  match (st0.entities i).parent with
  | some p =>
    let px := (st0.entities i).pos.x
    match calcRelativePos fuel st0 p with
    | none => none
    | some (st1, v) =>
      some (modifyEnt st1 i fun d =>
        { d with relativePos := { d.relativePos with x := px + v.x } })
  | none =>
    some (modifyEnt st0 i fun d =>
      { d with relativePos := { d.relativePos with x := d.pos.x } })

/-- Setter `top = val`: assign `this.pos.y`, then eagerly refresh the cached
y through the parent if one exists. -/
def setTop (fuel : ℕ) (st : St K) (i : ℕ) (val : K) : Option (St K) :=
  let st0 := modifyEnt st i fun d => { d with pos := { d.pos with y := val } }
  match (st0.entities i).parent with
  | some p =>
    let py := (st0.entities i).pos.y
    match calcRelativePos fuel st0 p with
    | none => none
    | some (st1, v) =>
      some (modifyEnt st1 i fun d =>
        { d with relativePos := { d.relativePos with y := py + v.y } })
  | none =>
    some (modifyEnt st0 i fun d =>
      { d with relativePos := { d.relativePos with y := d.pos.y } })

/-- One iteration sequence of the `_calculateFields` loop: for each field
reference, read `field.relativeLeft`, `this.relativeLeft`, `field.relativeTop`,
`this.relativeTop` (four accessor calls in JS evaluation order, each threading
the state), build the offset vector, scale it by
`field.mass / p15(vector.dot(vector))` and by `delta`, and accumulate. -/
def fieldLoop (p15 : K → K) (fuel : ℕ) (i : ℕ) (delta : K) :
    List ℕ → St K → Vec2 K → Option (St K × Vec2 K)
  | [], st, acc => some (st, acc)
  | f :: fs, st, acc =>
    match calcRelativePos fuel st f with
    | none => none
    | some (st1, vfl) =>
      match calcRelativePos fuel st1 i with
      | none => none
      | some (st2, vtl) =>
        match calcRelativePos fuel st2 f with
        | none => none
        | some (st3, vft) =>
          match calcRelativePos fuel st3 i with
          | none => none
          | some (st4, vtt) =>
            let vec : Vec2 K := { x := vfl.x - vtl.x, y := vft.y - vtt.y }
            let force := (st4.entities f).mass / p15 (vec.dot vec)
            fieldLoop p15 fuel i delta fs st4 (acc.add ((vec.mul force).mul delta))

/-- `_calculateFields(delta)`: run the loop over `this.fields` starting from
the zero accumulator, then return `this.acceleration.clone().add(acc)` —
the stored acceleration is read at the end and not mutated. -/
def calculateFields (p15 : K → K) (fuel : ℕ) (st : St K) (i : ℕ) (delta : K) :
    Option (St K × Vec2 K) :=
  match fieldLoop p15 fuel i delta (st.entities i).fields st { x := 0, y := 0 } with
  | none => none
  | some (st', acc) => some (st', ((st'.entities i).acceleration).add acc)

/-- The timeToLive portion of `_updateEntity(delta)`: `if (this.timeToLive)`
is JS truthiness, so an unset or zero value skips the whole block; when the
elapsed time strictly exceeds the value, `this._parent.detachChildEntity(this)`
runs — a thrown TypeError on a null `_parent` is modelled as `none`. -/
def ttlStep (st : St K) (i : ℕ) : Option (St K) :=
  let e := st.entities i
  match e.timeToLive with
  | none => some st
  | some t =>
    if t ≠ 0 then
      if st.now - e.creationTime > t then
        match e.parent with
        | none => none
        | some p => some (detachChildEntity st p i).1
      else some st
    else some st

/-- The velocity/position portion of `_updateEntity(delta)`: if the velocity
is not exactly (0,0), add `_calculateFields(delta)` into the velocity in
place and integrate the position with the updated velocity. -/
def physStep (p15 : K → K) (fuel : ℕ) (st1 : St K) (i : ℕ) (delta : K) :
    Option (St K) :=
  let e1 := st1.entities i
  if e1.velocity.x ≠ 0 ∨ e1.velocity.y ≠ 0 then
    match calculateFields p15 fuel st1 i delta with
    | none => none
    | some (st2, acc) =>
      let st3 := modifyEnt st2 i fun d => { d with velocity := d.velocity.add acc }
      let st4 := modifyEnt st3 i fun d =>
        { d with pos := { x := d.pos.x + d.velocity.x * delta
                          y := d.pos.y + d.velocity.y * delta } }
      some st4
  else some st1

/-- The node's own lifecycle-plus-physics portion of `_updateEntity(delta)`:
the timeToLive check followed by the conditional integration step. -/
def ownStep (p15 : K → K) (fuel : ℕ) (st : St K) (i : ℕ) (delta : K) :
    Option (St K) :=
  match ttlStep st i with
  | none => none
  | some st1 => physStep p15 fuel st1 i delta

/-- `_updateEntity(delta)`: the own step above (its entry marked by a `tick`
event), then `let updated = this.update && this.update(delta)` (an invocation
is marked by `uhook`), then the children are visited in order when
`updated || typeof updated == "undefined" || typeof this.update === "undefined"`. -/
def updateEntity (p15 : K → K) : ℕ → St K → ℕ → K → Option (St K)
  | 0, _, _, _ => none
  | fuel + 1, st, i, delta =>
    match ownStep p15 fuel (pushEv st (Ev.tick i)) i delta with
    | none => none
    | some st1 =>
      let e := st1.entities i
      let st2 :=
        match e.updateHook with
        | none => st1
        | some _ => pushEv st1 (Ev.uhook i)
      let upd : TriVal :=
        match e.updateHook with
        | none => TriVal.undef
        | some r => r
      if upd = TriVal.truthy ∨ upd = TriVal.undef ∨ e.updateHook = none then
        (st2.entities i).children.foldl
          (fun r c =>
            match r with
            | none => none
            | some s => updateEntity p15 fuel s c delta)
          (some st2)
      else
        some st2

/-- `_renderEntity()`: entry marked by `rvisit`; compute
`rendered = this.display && this.render && this.render()` (an actual hook
invocation, which happens only when `display` is truthy and the hook exists,
is marked by `rhook`); when `rendered` is truthy increment
`this._game._lastFrameTotalRenders` (a thrown TypeError when `_game` is null
is modelled as `none`); then visit the children when
`rendered || typeof rendered == "undefined" || typeof this.render === "undefined"`. -/
def renderEntity : ℕ → St K → ℕ → Option (St K)
  | 0, _, _ => none
  | fuel + 1, st, i =>
    let st0 := pushEv st (Ev.rvisit i)
    let e := st0.entities i
    let st1 :=
      if e.display = true then
        match e.renderHook with
        | none => st0
        | some _ => pushEv st0 (Ev.rhook i)
      else st0
    let rendered : TriVal :=
      if e.display = true then
        match e.renderHook with
        | none => TriVal.undef
        | some r => r
      else TriVal.falsy
    let st2opt : Option (St K) :=
      if rendered = TriVal.truthy then
        if e.game = true then
          some { st1 with scene :=
            { st1.scene with lastFrameTotalRenders := st1.scene.lastFrameTotalRenders + 1 } }
        else none
      else some st1
    match st2opt with
    | none => none
    | some st2 =>
      if rendered = TriVal.truthy ∨ rendered = TriVal.undef ∨ e.renderHook = none then
        (st2.entities i).children.foldl
          (fun r c =>
            match r with
            | none => none
            | some s => renderEntity fuel s c)
          (some st2)
      else some st2

/-! Framing infrastructure: which parts of the state each operation can
touch.  `ECore` drops the two relative-position cache fields (all that
`_calculateRelativePos` may write); `EStable` additionally drops `pos`,
`velocity` and `children` (all that one `_updateEntity` own-step may write). -/

/-- Every entity field except the relative-position cache. -/
structure ECore (K : Type) : Type where
  pos : Vec2 K
  velocity : Vec2 K
  acceleration : Vec2 K
  size : Vec2 K
  rotation : K
  display : Bool
  fields : List ℕ
  children : List ℕ
  game : Bool
  parent : Option ℕ
  creationTime : K
  timeToLive : Option K
  mass : K
  updateHook : Option TriVal
  renderHook : Option TriVal

/-- Project an entity onto everything but its relative-position cache. -/
def core (e : EntityData K) : ECore K :=
  { pos := e.pos, velocity := e.velocity, acceleration := e.acceleration
    size := e.size, rotation := e.rotation, display := e.display
    fields := e.fields, children := e.children, game := e.game
    parent := e.parent, creationTime := e.creationTime
    timeToLive := e.timeToLive, mass := e.mass
    updateHook := e.updateHook, renderHook := e.renderHook }

/-- Every entity field that no update/render traversal ever writes. -/
structure EStable (K : Type) : Type where
  acceleration : Vec2 K
  size : Vec2 K
  rotation : K
  display : Bool
  fields : List ℕ
  game : Bool
  parent : Option ℕ
  creationTime : K
  timeToLive : Option K
  mass : K
  updateHook : Option TriVal
  renderHook : Option TriVal

/-- Project an entity onto the fields untouched by update traversals. -/
def stable (e : EntityData K) : EStable K :=
  { acceleration := e.acceleration, size := e.size, rotation := e.rotation
    display := e.display, fields := e.fields, game := e.game
    parent := e.parent, creationTime := e.creationTime
    timeToLive := e.timeToLive, mass := e.mass
    updateHook := e.updateHook, renderHook := e.renderHook }

@[simp] theorem core_pos (e : EntityData K) : (core e).pos = e.pos := rfl

@[simp] theorem core_velocity (e : EntityData K) : (core e).velocity = e.velocity := rfl

@[simp] theorem core_acceleration (e : EntityData K) : (core e).acceleration = e.acceleration := rfl

@[simp] theorem core_display (e : EntityData K) : (core e).display = e.display := rfl

@[simp] theorem core_fields (e : EntityData K) : (core e).fields = e.fields := rfl

@[simp] theorem core_children (e : EntityData K) : (core e).children = e.children := rfl

@[simp] theorem core_game (e : EntityData K) : (core e).game = e.game := rfl

@[simp] theorem core_parent (e : EntityData K) : (core e).parent = e.parent := rfl

@[simp] theorem core_creationTime (e : EntityData K) : (core e).creationTime = e.creationTime := rfl

@[simp] theorem core_timeToLive (e : EntityData K) : (core e).timeToLive = e.timeToLive := rfl

@[simp] theorem core_mass (e : EntityData K) : (core e).mass = e.mass := rfl

@[simp] theorem core_updateHook (e : EntityData K) : (core e).updateHook = e.updateHook := rfl

@[simp] theorem core_renderHook (e : EntityData K) : (core e).renderHook = e.renderHook := rfl

@[simp] theorem stable_display (e : EntityData K) : (stable e).display = e.display := rfl

@[simp] theorem stable_game (e : EntityData K) : (stable e).game = e.game := rfl

@[simp] theorem stable_parent (e : EntityData K) : (stable e).parent = e.parent := rfl

@[simp] theorem stable_updateHook (e : EntityData K) : (stable e).updateHook = e.updateHook := rfl

@[simp] theorem stable_renderHook (e : EntityData K) : (stable e).renderHook = e.renderHook := rfl

@[simp] theorem stable_timeToLive (e : EntityData K) : (stable e).timeToLive = e.timeToLive := rfl

@[simp] theorem stable_creationTime (e : EntityData K) : (stable e).creationTime = e.creationTime := rfl

@[simp] theorem stable_fields (e : EntityData K) : (stable e).fields = e.fields := rfl

@[simp] theorem stable_mass (e : EntityData K) : (stable e).mass = e.mass := rfl

@[simp] theorem stable_acceleration (e : EntityData K) : (stable e).acceleration = e.acceleration := rfl

@[simp] theorem core_write_relativePos (e : EntityData K) (v : Vec2 K) :
    core { e with relativePos := v } = core e := rfl

@[simp] theorem core_write_stamp (e : EntityData K) (m : ℕ) :
    core { e with lastRelativePosCalculated := m } = core e := rfl

@[simp] theorem stable_write_relativePos (e : EntityData K) (v : Vec2 K) :
    stable { e with relativePos := v } = stable e := rfl

@[simp] theorem stable_write_stamp (e : EntityData K) (m : ℕ) :
    stable { e with lastRelativePosCalculated := m } = stable e := rfl

@[simp] theorem stable_write_pos (e : EntityData K) (v : Vec2 K) :
    stable { e with pos := v } = stable e := rfl

@[simp] theorem stable_write_velocity (e : EntityData K) (v : Vec2 K) :
    stable { e with velocity := v } = stable e := rfl

@[simp] theorem stable_write_children (e : EntityData K) (l : List ℕ) :
    stable { e with children := l } = stable e := rfl

/-- Core equality determines stable equality. -/
theorem stable_eq_of_core {e1 e2 : EntityData K} (h : core e1 = core e2) :
    stable e1 = stable e2 := by
  cases e1; cases e2
  simp only [core, ECore.mk.injEq] at h
  simp only [stable, EStable.mk.injEq]
  tauto

@[simp] theorem pushEv_entities (st : St K) (e : Ev) : (pushEv st e).entities = st.entities := rfl

@[simp] theorem pushEv_scene (st : St K) (e : Ev) : (pushEv st e).scene = st.scene := rfl

@[simp] theorem pushEv_now (st : St K) (e : Ev) : (pushEv st e).now = st.now := rfl

@[simp] theorem pushEv_trace (st : St K) (e : Ev) : (pushEv st e).trace = st.trace ++ [e] := rfl

@[simp] theorem setEnt_scene (st : St K) (i : ℕ) (d : EntityData K) : (setEnt st i d).scene = st.scene := rfl

@[simp] theorem setEnt_now (st : St K) (i : ℕ) (d : EntityData K) : (setEnt st i d).now = st.now := rfl

@[simp] theorem setEnt_trace (st : St K) (i : ℕ) (d : EntityData K) : (setEnt st i d).trace = st.trace := rfl

@[simp] theorem setEnt_entities (st : St K) (i : ℕ) (d : EntityData K) (j : ℕ) :
    (setEnt st i d).entities j = if j = i then d else st.entities j :=
  Function.update_apply st.entities i d j

@[simp] theorem modifyEnt_scene (st : St K) (i : ℕ) (f : EntityData K → EntityData K) :
    (modifyEnt st i f).scene = st.scene := rfl

@[simp] theorem modifyEnt_now (st : St K) (i : ℕ) (f : EntityData K → EntityData K) :
    (modifyEnt st i f).now = st.now := rfl

@[simp] theorem modifyEnt_trace (st : St K) (i : ℕ) (f : EntityData K → EntityData K) :
    (modifyEnt st i f).trace = st.trace := rfl

@[simp] theorem modifyEnt_entities (st : St K) (i : ℕ) (f : EntityData K → EntityData K) (j : ℕ) :
    (modifyEnt st i f).entities j = if j = i then f (st.entities i) else st.entities j :=
  Function.update_apply st.entities i (f (st.entities i)) j

/-- Relative-position resolution touches only the cache fields: scene, time,
trace and every entity's core are unchanged. -/
theorem calc_core :
    ∀ (n : ℕ) (st : St K) (i : ℕ) (st' : St K) (v : Vec2 K),
      calcRelativePos n st i = some (st', v) →
      st'.scene = st.scene ∧ st'.now = st.now ∧ st'.trace = st.trace ∧
        ∀ j, core (st'.entities j) = core (st.entities j) := by
  intro n
  induction n with
  | zero => intro st i st' v h; simp [calcRelativePos] at h
  | succ n ih =>
    intro st i st' v h
    simp only [calcRelativePos] at h
    split at h
    · split at h
      · rename_i p hp
        split at h
        · exact absurd h (by simp)
        · rename_i st1 v1 h1
          split at h
          · exact absurd h (by simp)
          · rename_i st2 v2 h2
            obtain ⟨hsc1, hn1, ht1, hc1⟩ := ih st p st1 v1 h1
            obtain ⟨hsc2, hn2, ht2, hc2⟩ := ih _ p st2 v2 h2
            simp only [Option.some.injEq, Prod.mk.injEq] at h
            obtain ⟨hst, -⟩ := h
            subst hst
            refine ⟨by simp [hsc2, hsc1], by simp [hn2, hn1], by simp [ht2, ht1], ?_⟩
            intro j
            by_cases hj : j = i
            · subst hj
              have h2j := hc2 j
              simp only [modifyEnt_entities, if_pos rfl] at h2j ⊢
              calc core _ = core (st2.entities j) := rfl
                _ = core _ := h2j
                _ = core (st1.entities j) := rfl
                _ = core (st.entities j) := hc1 j
            · have h2j := hc2 j
              simp only [modifyEnt_entities, if_neg hj] at h2j ⊢
              exact h2j.trans (hc1 j)
      · simp only [Option.some.injEq, Prod.mk.injEq] at h
        obtain ⟨hst, -⟩ := h
        subst hst
        refine ⟨rfl, rfl, rfl, ?_⟩
        intro j
        by_cases hj : j = i
        · subst hj
          simp only [modifyEnt_entities, if_pos rfl]
          rfl
        · simp only [modifyEnt_entities, if_neg hj]
    · simp only [Option.some.injEq, Prod.mk.injEq] at h
      obtain ⟨hst, -⟩ := h
      subst hst
      exact ⟨rfl, rfl, rfl, fun _ => rfl⟩

/-- The result of removing one element is a sublist of the original list. -/
theorem removeFirst_sublist : ∀ (l : List ℕ) (c : ℕ), (removeFirst l c).1.Sublist l := by
  intro l c
  induction l with
  | nil => simp [removeFirst]
  | cons x xs ih =>
    simp only [removeFirst]
    split
    · exact List.sublist_cons_self x xs
    · exact List.Sublist.cons₂ x ih

/-- Folding the fallible child-step over any list maps `none` to `none`. -/
theorem foldChain_none (f : St K → ℕ → Option (St K)) (cs : List ℕ) :
    cs.foldl (fun r c => match r with | none => none | some s => f s c) none = none := by
  induction cs with
  | nil => rfl
  | cons c cs ih => exact ih

/-- Any reflexive transitive relation respected by the step function is
respected by the whole child fold. -/
theorem foldChain_rel {P : St K → St K → Prop}
    (hrefl : ∀ s, P s s) (htr : ∀ a b c, P a b → P b c → P a c)
    (f : St K → ℕ → Option (St K))
    (hf : ∀ s c s', f s c = some s' → P s s') :
    ∀ (cs : List ℕ) (st st' : St K),
      cs.foldl (fun r c => match r with | none => none | some s => f s c) (some st) = some st' →
      P st st' := by
  intro cs
  induction cs with
  | nil => intro st st' h; cases h; exact hrefl st
  | cons c cs ih =>
    intro st st' h
    simp only [List.foldl_cons] at h
    cases hfc : f st c with
    | none => rw [hfc] at h; rw [foldChain_none] at h; cases h
    | some s1 => rw [hfc] at h; exact htr _ _ _ (hf st c s1 hfc) (ih s1 st' h)

/-- Framing relation for update traversals: the scene and clock are
unchanged, the trace only grows, every entity's stable projection is
unchanged, and every child list only shrinks. -/
def Frames (a b : St K) : Prop :=
  b.scene = a.scene ∧ b.now = a.now ∧ (∃ t, b.trace = a.trace ++ t) ∧
    (∀ j, stable (b.entities j) = stable (a.entities j)) ∧
    (∀ j, (b.entities j).children.Sublist (a.entities j).children)

theorem frames_refl (s : St K) : Frames s s :=
  ⟨rfl, rfl, ⟨[], by simp⟩, fun _ => rfl, fun _ => List.Sublist.refl _⟩

theorem frames_trans {a b c : St K} (h1 : Frames a b) (h2 : Frames b c) : Frames a c := by
  obtain ⟨s1, n1, ⟨t1, ht1⟩, e1, c1⟩ := h1
  obtain ⟨s2, n2, ⟨t2, ht2⟩, e2, c2⟩ := h2
  exact ⟨s2.trans s1, n2.trans n1, ⟨t1 ++ t2, by rw [ht2, ht1, List.append_assoc]⟩,
    fun j => (e2 j).trans (e1 j), fun j => (c2 j).trans (c1 j)⟩

/-- Membership in the trace survives a framing step. -/
theorem frames_mem {a b : St K} (h : Frames a b) {e : Ev} (he : e ∈ a.trace) : e ∈ b.trace := by
  obtain ⟨-, -, ⟨t, ht⟩, -, -⟩ := h
  rw [ht]; exact List.mem_append_left t he

/-- The field loop touches only relative-position caches. -/
theorem fieldLoop_core (p15 : K → K) (fuel : ℕ) (i : ℕ) (delta : K) :
    ∀ (fs : List ℕ) (st : St K) (acc : Vec2 K) (st' : St K) (acc' : Vec2 K),
      fieldLoop p15 fuel i delta fs st acc = some (st', acc') →
      st'.scene = st.scene ∧ st'.now = st.now ∧ st'.trace = st.trace ∧
        ∀ j, core (st'.entities j) = core (st.entities j) := by
  intro fs
  induction fs with
  | nil =>
    intro st acc st' acc' h
    simp only [fieldLoop, Option.some.injEq, Prod.mk.injEq] at h
    obtain ⟨hst, -⟩ := h
    subst hst
    exact ⟨rfl, rfl, rfl, fun _ => rfl⟩
  | cons f fs ih =>
    intro st acc st' acc' h
    simp only [fieldLoop] at h
    split at h
    · exact absurd h (by simp)
    · rename_i st1 v1 h1
      split at h
      · exact absurd h (by simp)
      · rename_i st2 v2 h2
        split at h
        · exact absurd h (by simp)
        · rename_i st3 v3 h3
          split at h
          · exact absurd h (by simp)
          · rename_i st4 v4 h4
            obtain ⟨a1, b1, c1, d1⟩ := calc_core _ _ _ _ _ h1
            obtain ⟨a2, b2, c2, d2⟩ := calc_core _ _ _ _ _ h2
            obtain ⟨a3, b3, c3, d3⟩ := calc_core _ _ _ _ _ h3
            obtain ⟨a4, b4, c4, d4⟩ := calc_core _ _ _ _ _ h4
            obtain ⟨a5, b5, c5, d5⟩ := ih _ _ _ _ h
            refine ⟨by rw [a5, a4, a3, a2, a1], by rw [b5, b4, b3, b2, b1],
              by rw [c5, c4, c3, c2, c1], ?_⟩
            intro j
            rw [d5 j, d4 j, d3 j, d2 j, d1 j]

/-- `_calculateFields` touches only relative-position caches. -/
theorem calculateFields_core (p15 : K → K) (fuel : ℕ) (st : St K) (i : ℕ) (delta : K)
    (st' : St K) (acc : Vec2 K) (h : calculateFields p15 fuel st i delta = some (st', acc)) :
    st'.scene = st.scene ∧ st'.now = st.now ∧ st'.trace = st.trace ∧
      ∀ j, core (st'.entities j) = core (st.entities j) := by
  simp only [calculateFields] at h
  split at h
  · exact absurd h (by simp)
  · rename_i st1 acc1 h1
    simp only [Option.some.injEq, Prod.mk.injEq] at h
    obtain ⟨hst, -⟩ := h
    subst hst
    exact fieldLoop_core p15 fuel i delta _ st _ _ _ h1

/-- The own step of `_updateEntity` preserves the scene, clock and trace,
every entity's stable projection, and only shrinks child lists. -/
theorem ttlStep_frame (st : St K) (i : ℕ) (st1 : St K) (h : ttlStep st i = some st1) :
    st1.scene = st.scene ∧ st1.now = st.now ∧ st1.trace = st.trace ∧
      (∀ j, stable (st1.entities j) = stable (st.entities j)) ∧
      (∀ j, (st1.entities j).children.Sublist (st.entities j).children) := by
  simp only [ttlStep] at h
  split at h
  · cases h; exact ⟨rfl, rfl, rfl, fun _ => rfl, fun _ => List.Sublist.refl _⟩
  · rename_i t ht
    split at h
    · split at h
      · split at h
        · cases h
        · rename_i p hp
          cases h
          refine ⟨rfl, rfl, rfl, ?_, ?_⟩
          · intro j
            simp only [detachChildEntity, modifyEnt_entities]
            by_cases hj : j = p
            · subst hj; simp
            · simp [hj]
          · intro j
            simp only [detachChildEntity, modifyEnt_entities]
            by_cases hj : j = p
            · subst hj; simp only [if_pos rfl]; exact removeFirst_sublist _ _
            · simp only [if_neg hj]; exact List.Sublist.refl _
      · cases h; exact ⟨rfl, rfl, rfl, fun _ => rfl, fun _ => List.Sublist.refl _⟩
    · cases h; exact ⟨rfl, rfl, rfl, fun _ => rfl, fun _ => List.Sublist.refl _⟩

theorem physStep_frame (p15 : K → K) (fuel : ℕ) (st1 : St K) (i : ℕ) (delta : K)
    (st' : St K) (h : physStep p15 fuel st1 i delta = some st') :
    st'.scene = st1.scene ∧ st'.now = st1.now ∧ st'.trace = st1.trace ∧
      (∀ j, stable (st'.entities j) = stable (st1.entities j)) ∧
      (∀ j, (st'.entities j).children = (st1.entities j).children) := by
  simp only [physStep] at h
  split at h
  · split at h
    · cases h
    · rename_i st2 acc h2
      obtain ⟨s2, n2, t2, e2⟩ := calculateFields_core p15 fuel st1 i delta st2 acc h2
      cases h
      refine ⟨s2, n2, t2, ?_, ?_⟩
      · intro j
        simp only [modifyEnt_entities]
        by_cases hj : j = i
        · subst hj
          simp only [if_pos rfl]
          calc stable _ = stable (st2.entities j) := rfl
            _ = stable (st1.entities j) := stable_eq_of_core (e2 j)
        · simp only [if_neg hj]
          exact stable_eq_of_core (e2 j)
      · intro j
        have hch : (st2.entities j).children = (st1.entities j).children :=
          congrArg ECore.children (e2 j)
        simp only [modifyEnt_entities]
        by_cases hj : j = i
        · subst hj
          simp only [if_pos rfl]
          show (st2.entities j).children = (st1.entities j).children
          exact hch
        · simp only [if_neg hj]
          exact hch
  · cases h
    exact ⟨rfl, rfl, rfl, fun _ => rfl, fun _ => rfl⟩

/-- The own step of `_updateEntity` preserves the scene, clock and trace,
every entity's stable projection, and only shrinks child lists. -/
theorem ownStep_frame (p15 : K → K) (fuel : ℕ) (st : St K) (i : ℕ) (delta : K)
    (st' : St K) (h : ownStep p15 fuel st i delta = some st') :
    st'.scene = st.scene ∧ st'.now = st.now ∧ st'.trace = st.trace ∧
      (∀ j, stable (st'.entities j) = stable (st.entities j)) ∧
      (∀ j, (st'.entities j).children.Sublist (st.entities j).children) := by
  simp only [ownStep] at h
  split at h
  · cases h
  · rename_i st1 hstep
    obtain ⟨s1, n1, t1, e1, c1⟩ := ttlStep_frame st i st1 hstep
    obtain ⟨s2, n2, t2, e2, c2⟩ := physStep_frame p15 fuel st1 i delta st' h
    exact ⟨s2.trans s1, n2.trans n1, t2.trans t1,
      fun j => (e2 j).trans (e1 j), fun j => (c2 j) ▸ c1 j⟩

theorem frames_pushEv (s : St K) (e : Ev) : Frames s (pushEv s e) :=
  ⟨rfl, rfl, ⟨[e], rfl⟩, fun _ => rfl, fun _ => List.Sublist.refl _⟩

/-- One `_updateEntity` call frames: scene and clock unchanged, trace only
appended to, stable projections unchanged, child lists only shrink. -/
theorem upd_frame (p15 : K → K) :
    ∀ (fuel : ℕ) (st : St K) (i : ℕ) (delta : K) (st' : St K),
      updateEntity p15 fuel st i delta = some st' → Frames st st' := by
  intro fuel
  induction fuel with
  | zero => intro st i delta st' h; simp [updateEntity] at h
  | succ n ih =>
    intro st i delta st' h
    simp only [updateEntity] at h
    split at h
    · cases h
    · rename_i st1 h1
      obtain ⟨s1, n1, t1, e1, c1⟩ := ownStep_frame p15 n _ i delta st1 h1
      have f1 : Frames st st1 := by
        refine ⟨by simpa using s1, by simpa using n1, ⟨[Ev.tick i], by simpa using t1⟩,
          fun j => by simpa using e1 j, fun j => by simpa using c1 j⟩
      cases hu : (st1.entities i).updateHook with
      | none =>
        simp only [hu] at h
        rw [if_pos (by simp)] at h
        exact frames_trans f1
          (foldChain_rel frames_refl (fun _ _ _ => frames_trans)
            (fun s c => updateEntity p15 n s c delta)
            (fun s c s' hh => ih s c delta s' hh) _ _ _ h)
      | some r =>
        simp only [hu] at h
        have f2 : Frames st (pushEv st1 (Ev.uhook i)) :=
          frames_trans f1 (frames_pushEv st1 (Ev.uhook i))
        split at h
        · exact frames_trans f2
            (foldChain_rel frames_refl (fun _ _ _ => frames_trans)
              (fun s c => updateEntity p15 n s c delta)
              (fun s c s' hh => ih s c delta s' hh) _ _ _ h)
        · cases h; exact f2

/-- A successful `_updateEntity` call on `i` logs `i`'s own-step entry. -/
theorem upd_tick (p15 : K → K) (n : ℕ) (st : St K) (i : ℕ) (delta : K) (st' : St K)
    (h : updateEntity p15 (n + 1) st i delta = some st') : Ev.tick i ∈ st'.trace := by
  simp only [updateEntity] at h
  split at h
  · cases h
  · rename_i st1 h1
    obtain ⟨-, -, t1, -, -⟩ := ownStep_frame p15 n _ i delta st1 h1
    have hm : Ev.tick i ∈ st1.trace := by
      rw [t1]; simp
    cases hu : (st1.entities i).updateHook with
    | none =>
      simp only [hu] at h
      rw [if_pos (by simp)] at h
      exact frames_mem
        (foldChain_rel frames_refl (fun _ _ _ => frames_trans)
          (fun s c => updateEntity p15 n s c delta)
          (fun s c s' hh => upd_frame p15 n s c delta s' hh) _ _ _ h) hm
    | some r =>
      simp only [hu] at h
      have hm2 : Ev.tick i ∈ (pushEv st1 (Ev.uhook i)).trace := by
        simp [hm]
      split at h
      · exact frames_mem
          (foldChain_rel frames_refl (fun _ _ _ => frames_trans)
            (fun s c => updateEntity p15 n s c delta)
            (fun s c s' hh => upd_frame p15 n s c delta s' hh) _ _ _ h) hm2
      · cases h; exact hm2

/-- Framing relation for render traversals: no entity is ever written, the
clock and frame counter are unchanged, and the trace only grows. -/
def RFrames (a b : St K) : Prop :=
  b.entities = a.entities ∧ b.now = a.now ∧
    b.scene.frameCounter = a.scene.frameCounter ∧ ∃ t, b.trace = a.trace ++ t

theorem rframes_refl (s : St K) : RFrames s s := ⟨rfl, rfl, rfl, ⟨[], by simp⟩⟩

theorem rframes_trans {a b c : St K} (h1 : RFrames a b) (h2 : RFrames b c) : RFrames a c := by
  obtain ⟨e1, n1, f1, ⟨t1, ht1⟩⟩ := h1
  obtain ⟨e2, n2, f2, ⟨t2, ht2⟩⟩ := h2
  exact ⟨e2.trans e1, n2.trans n1, f2.trans f1,
    ⟨t1 ++ t2, by rw [ht2, ht1, List.append_assoc]⟩⟩

theorem rframes_mem {a b : St K} (h : RFrames a b) {e : Ev} (he : e ∈ a.trace) : e ∈ b.trace := by
  obtain ⟨-, -, -, ⟨t, ht⟩⟩ := h
  rw [ht]; exact List.mem_append_left t he

theorem rframes_pushEv (s : St K) (e : Ev) : RFrames s (pushEv s e) :=
  ⟨rfl, rfl, rfl, ⟨[e], rfl⟩⟩

/-- One `_renderEntity` call frames: entities untouched, clock and frame
counter unchanged, trace only appended to. -/
theorem rnd_frame :
    ∀ (fuel : ℕ) (st : St K) (i : ℕ) (st' : St K),
      renderEntity fuel st i = some st' → RFrames st st' := by
  intro fuel
  induction fuel with
  | zero => intro st i st' h; simp [renderEntity] at h
  | succ n ih =>
    intro st i st' h
    have hfold : ∀ (cs : List ℕ) (a b : St K),
        cs.foldl (fun r c => match r with | none => none | some s => renderEntity n s c)
          (some a) = some b → RFrames a b :=
      fun cs a b hh =>
        foldChain_rel rframes_refl (fun _ _ _ => rframes_trans)
          (fun s c => renderEntity n s c) (fun s c s' h2 => ih s c s' h2) cs a b hh
    simp only [renderEntity, pushEv_entities] at h
    by_cases hd : (st.entities i).display = true
    · cases hrh : (st.entities i).renderHook with
      | none =>
        simp [hd, hrh] at h
        exact rframes_trans (rframes_pushEv st (Ev.rvisit i)) (hfold _ _ _ h)
      | some r =>
        simp only [hd, hrh] at h
        cases r with
        | truthy =>
          simp at h
          cases hg : (st.entities i).game with
          | false => simp [hg] at h
          | true =>
            simp [hg] at h
            refine rframes_trans ?_ (hfold _ _ _ h)
            exact rframes_trans
              (rframes_trans (rframes_pushEv st (Ev.rvisit i))
                (rframes_pushEv _ (Ev.rhook i)))
              ⟨rfl, rfl, rfl, ⟨[], by simp⟩⟩
        | falsy =>
          simp at h
          subst h
          exact rframes_trans (rframes_pushEv st (Ev.rvisit i)) (rframes_pushEv _ (Ev.rhook i))
        | undef =>
          simp at h
          refine rframes_trans ?_ (hfold _ _ _ h)
          exact rframes_trans (rframes_pushEv st (Ev.rvisit i)) (rframes_pushEv _ (Ev.rhook i))
    · simp only [if_neg hd] at h
      cases hrh : (st.entities i).renderHook with
      | none =>
        simp [hrh] at h
        exact rframes_trans (rframes_pushEv st (Ev.rvisit i)) (hfold _ _ _ h)
      | some r =>
        simp [hrh] at h
        subst h
        exact rframes_pushEv st (Ev.rvisit i)

/-- A successful `_renderEntity` call on `i` logs `i`'s traversal entry. -/
theorem rnd_rvisit (n : ℕ) (st : St K) (i : ℕ) (st' : St K)
    (h : renderEntity (n + 1) st i = some st') : Ev.rvisit i ∈ st'.trace := by
  have hfold : ∀ (cs : List ℕ) (a b : St K),
      cs.foldl (fun r c => match r with | none => none | some s => renderEntity n s c)
        (some a) = some b → RFrames a b :=
    fun cs a b hh =>
      foldChain_rel rframes_refl (fun _ _ _ => rframes_trans)
        (fun s c => renderEntity n s c) (fun s c s' h2 => rnd_frame n s c s' h2) cs a b hh
  have hv : Ev.rvisit i ∈ (pushEv st (Ev.rvisit i)).trace := by simp
  simp only [renderEntity, pushEv_entities] at h
  by_cases hd : (st.entities i).display = true
  · cases hrh : (st.entities i).renderHook with
    | none =>
      simp [hd, hrh] at h
      exact rframes_mem (hfold _ _ _ h) hv
    | some r =>
      simp only [hd, hrh] at h
      cases r with
      | truthy =>
        simp at h
        cases hg : (st.entities i).game with
        | false => simp [hg] at h
        | true =>
          simp [hg] at h
          refine rframes_mem (hfold _ _ _ h) ?_
          simp
      | falsy =>
        simp at h
        subst h
        simp
      | undef =>
        simp at h
        refine rframes_mem (hfold _ _ _ h) ?_
        simp
  · simp only [if_neg hd] at h
    cases hrh : (st.entities i).renderHook with
    | none =>
      simp [hrh] at h
      exact rframes_mem (hfold _ _ _ h) hv
    | some r =>
      simp [hrh] at h
      subst h
      simp

/-- Without a scene context the guard of `_calculateRelativePos` is false:
the call returns the cached `_relativePos` and leaves the state untouched. -/
theorem calc_noGame (n : ℕ) (st : St K) (i : ℕ) (h : (st.entities i).game = false) :
    calcRelativePos (n + 1) st i = some (st, (st.entities i).relativePos) := by
  simp [calcRelativePos, h]

/-- After a successful resolution of an attached entity, the cached vector
holds the returned value and the stamp is at least the current frame. -/
theorem calc_stamp (n : ℕ) (st : St K) (i : ℕ) (st' : St K) (v : Vec2 K)
    (hg : (st.entities i).game = true) (h : calcRelativePos n st i = some (st', v)) :
    (st'.entities i).relativePos = v ∧
      st.scene.frameCounter ≤ (st'.entities i).lastRelativePosCalculated := by
  cases n with
  | zero => simp [calcRelativePos] at h
  | succ n =>
    simp only [calcRelativePos] at h
    split at h
    · rename_i hcond
      split at h
      · rename_i p hp
        split at h
        · exact absurd h (by simp)
        · rename_i st1 v1 h1
          split at h
          · exact absurd h (by simp)
          · rename_i st2 v2 h2
            obtain ⟨s1, -, -, -⟩ := calc_core _ _ _ _ _ h1
            obtain ⟨s2, -, -, -⟩ := calc_core _ _ _ _ _ h2
            simp only [Option.some.injEq, Prod.mk.injEq] at h
            obtain ⟨hst, hv⟩ := h
            subst hst
            constructor
            · rw [← hv]
            · simp only [modifyEnt_entities, if_pos rfl, modifyEnt_scene]
              have : st2.scene = st.scene := by
                rw [s2]; simpa using s1
              simp [this]
      · simp only [Option.some.injEq, Prod.mk.injEq] at h
        obtain ⟨hst, hv⟩ := h
        subst hst
        constructor
        · rw [← hv]
        · simp only [modifyEnt_entities, if_pos rfl, modifyEnt_scene]
          simp
    · rename_i hcond
      simp only [Option.some.injEq, Prod.mk.injEq] at h
      obtain ⟨hst, hv⟩ := h
      subst hst
      rw [hg] at hcond
      simp only [true_and, not_lt] at hcond
      exact ⟨hv ▸ rfl, hcond⟩

/-- C6 (confirmed).  For an entity attached to a scene context: a second
read under the same frame counter returns the identical cached value and
does not change the state at all (no recomputation once stamped); and a
read that finds the cache stale (frame counter has advanced past the stamp)
does recompute — it stamps the cache with the current frame counter and,
for a parentless entity, returns the entity's current local position. -/
theorem c6_cache_coherence :
    (∀ (n m : ℕ) (st : St K) (i : ℕ) (st' : St K) (v : Vec2 K),
        (st.entities i).game = true →
        calcRelativePos n st i = some (st', v) →
        calcRelativePos (m + 1) st' i = some (st', v)) ∧
    (∀ (n : ℕ) (st : St K) (i : ℕ) (st' : St K) (v : Vec2 K),
        (st.entities i).game = true →
        (st.entities i).lastRelativePosCalculated < st.scene.frameCounter →
        calcRelativePos (n + 1) st i = some (st', v) →
        (st'.entities i).lastRelativePosCalculated = st.scene.frameCounter ∧
          ((st.entities i).parent = none →
            v = { x := (st.entities i).pos.x, y := (st.entities i).pos.y })) := by
  constructor
  · intro n m st i st' v hg h
    obtain ⟨hrel, hstamp⟩ := calc_stamp n st i st' v hg h
    obtain ⟨hsc, -, -, hcore⟩ := calc_core n st i st' v h
    have hg' : (st'.entities i).game = true := by
      have := congrArg ECore.game (hcore i)
      simpa using this.trans hg
    have hnot : ¬((st'.entities i).game = true ∧
        (st'.entities i).lastRelativePosCalculated < st'.scene.frameCounter) := by
      rintro ⟨-, hlt⟩
      rw [hsc] at hlt
      exact absurd hlt (not_lt.mpr hstamp)
    simp only [calcRelativePos, if_neg hnot, hrel]
  · intro n st i st' v hg hlt h
    simp only [calcRelativePos, if_pos (And.intro hg hlt)] at h
    split at h
    · rename_i p hp
      split at h
      · exact absurd h (by simp)
      · rename_i st1 v1 h1
        split at h
        · exact absurd h (by simp)
        · rename_i st2 v2 h2
          obtain ⟨s1, -, -, -⟩ := calc_core _ _ _ _ _ h1
          obtain ⟨s2, -, -, -⟩ := calc_core _ _ _ _ _ h2
          simp only [Option.some.injEq, Prod.mk.injEq] at h
          obtain ⟨hst, -⟩ := h
          subst hst
          constructor
          · simp only [modifyEnt_entities, if_pos rfl, modifyEnt_scene]
            have : st2.scene = st.scene := by rw [s2]; simpa using s1
            simp [this]
          · intro hpar
            rw [hpar] at hp
            cases hp
    · rename_i hp
      simp only [Option.some.injEq, Prod.mk.injEq] at h
      obtain ⟨hst, hv⟩ := h
      subst hst
      constructor
      · simp only [modifyEnt_entities, if_pos rfl, modifyEnt_scene]
        rfl
      · intro _
        rw [← hv]
        simp only [modifyEnt_entities, if_pos rfl]
        rfl

/-- Dummy stand-in for `Math.pow(·, 1.5)` used only in concrete integer
runs whose field lists are empty, where the exponentiation is never
evaluated; any function yields the identical run. -/
def qPow15 : ℤ → ℤ := fun _ => 0

/-- Concrete base state over `ℚ`: every heap cell a fresh default entity,
counters and clock at zero, empty trace. -/
def baseSt : St ℤ :=
  { entities := fun _ => mkEntity 0 0 0
    scene := { frameCounter := 0, lastFrameTotalRenders := 0 }
    now := 0
    trace := [] }

/-- Witness for c6_cache_coherence at a concrete attached entity: a first
read at frame 3 recomputes and stamps, and both conjuncts apply. -/
def c6St : St ℤ :=
  setEnt { baseSt with scene := { frameCounter := 3, lastFrameTotalRenders := 0 } } 0
    { mkEntity 4 5 0 with game := true, relativePos := { x := 9, y := 9 } }

theorem c6_cache_coherence_witness :
    (calcRelativePos 1 c6St 0).bind (fun r => calcRelativePos 1 r.1 0) =
        calcRelativePos 1 c6St 0 ∧
      (calcRelativePos 1 c6St 0).map
          (fun r => ((r.1.entities 0).lastRelativePosCalculated, r.2)) =
        some (3, { x := 4, y := 5 }) := by
  have hg : (c6St.entities 0).game = true := rfl
  have hlt : (c6St.entities 0).lastRelativePosCalculated < c6St.scene.frameCounter := by decide
  cases hread : calcRelativePos 1 c6St 0 with
  | none =>
    exact absurd hread
      (Option.ne_none_iff_isSome.mpr (by decide : (calcRelativePos 1 c6St 0).isSome = true))
  | some r =>
    obtain ⟨st', v⟩ := r
    have h1 := c6_cache_coherence.1 1 0 c6St 0 st' v hg hread
    have h2 := c6_cache_coherence.2 0 c6St 0 st' v hg hlt hread
    refine ⟨?_, ?_⟩
    · show calcRelativePos 1 st' 0 = some (st', v)
      exact h1
    · show some ((st'.entities 0).lastRelativePosCalculated, v) = some (3, { x := 4, y := 5 })
      obtain ⟨hstamp, hval⟩ := h2
      rw [hstamp, hval rfl]
      rfl

/-- Concrete state for the C4 counterexample and witness: a detached entity
(no scene context, no parent) at the origin, cache in sync, velocity (1,0). -/
def c4St : St ℤ := setEnt baseSt 0 { mkEntity 0 0 0 with velocity := { x := 1, y := 0 } }

/-- C4 (corrected, amended claim).  For an entity with no scene context a
read of relativeLeft/relativeTop never recomputes: the guard of
`_calculateRelativePos` is false, so the read returns the cached
`_relativePos` unchanged and leaves the state untouched — the result
therefore reflects the last cache write (construction or a left/top setter),
not necessarily the position at the moment of the read. -/
theorem c4_unattached_read_cached (n : ℕ) (st : St K) (i : ℕ)
    (h : (st.entities i).game = false) :
    calcRelativePos (n + 1) st i = some (st, (st.entities i).relativePos) :=
  calc_noGame n st i h

theorem c4_unattached_read_cached_witness :
    calcRelativePos 1 c4St 0 = some (c4St, { x := 0, y := 0 }) :=
  c4_unattached_read_cached 0 c4St 0 rfl

/-- C4 counterexample.  The claim says every relativeLeft read of a
scene-less entity recomputes and "always reflects the position at that
moment".  Here one physics tick moves the entity to left = 1, yet the
subsequent relativeLeft read returns the stale cached 0. -/
theorem c4_counterexample :
    (updateEntity qPow15 2 c4St 0 1).map
        (fun s => ((s.entities 0).pos.x, (calcRelativePos 1 s 0).map (fun r => r.2.x))) =
      some (1, some 0) ∧ (1 : ℤ) ≠ 0 :=
  ⟨by decide, by decide⟩

/-- Concrete state for the C5 counterexample: a parentless entity attached
to a scene, relative-position cache already stamped for the current frame
counter 1, with velocity (2,0). -/
def c5St : St ℤ :=
  setEnt { baseSt with scene := { frameCounter := 1, lastFrameTotalRenders := 0 } } 0
    { mkEntity 0 0 0 with
        velocity := { x := 2, y := 0 }
        game := true
        lastRelativePosCalculated := 1 }

/-- C5 counterexample.  The claim says a parentless entity has
relativeLeft = left at every point of every execution.  Here one physics
tick moves the entity to left = 2 while the frame counter stays at 1, and a
relativeLeft read still returns the cached 0. -/
theorem c5_counterexample :
    (updateEntity qPow15 2 c5St 0 1).map
        (fun s => ((s.entities 0).pos.x, (calcRelativePos 1 s 0).map (fun r => r.2.x))) =
      some (2, some 0) ∧ (2 : ℤ) ≠ 0 :=
  ⟨by decide, by decide⟩

/-- C5 (corrected, amended claim).  For parentless entities,
relativeLeft/relativeTop agree with left/top exactly at the cache
synchronisation points: a read that actually recomputes (attached, stale
stamp) returns the current local position; a left/top setter write refreshes
the cached coordinate to the new local value; and construction initialises
the cache to the position.  In between — in particular after the physics
integration mutates `pos` directly — the equality can fail until the next
recomputing read (see the counterexample). -/
theorem c5_parentless_sync :
    (∀ (n : ℕ) (st : St K) (i : ℕ) (st' : St K) (v : Vec2 K),
        (st.entities i).parent = none →
        (st.entities i).game = true →
        (st.entities i).lastRelativePosCalculated < st.scene.frameCounter →
        calcRelativePos (n + 1) st i = some (st', v) →
        v.x = (st.entities i).pos.x ∧ v.y = (st.entities i).pos.y) ∧
    (∀ (fuel : ℕ) (st : St K) (i : ℕ) (val : K) (st2 : St K),
        (st.entities i).parent = none →
        setLeft fuel st i val = some st2 →
        (st2.entities i).relativePos.x = (st2.entities i).pos.x ∧
          (st2.entities i).pos.x = val) ∧
    (∀ (fuel : ℕ) (st : St K) (i : ℕ) (val : K) (st2 : St K),
        (st.entities i).parent = none →
        setTop fuel st i val = some st2 →
        (st2.entities i).relativePos.y = (st2.entities i).pos.y ∧
          (st2.entities i).pos.y = val) ∧
    (∀ (x y now : K), (mkEntity x y now).relativePos = (mkEntity x y now).pos) := by
  refine ⟨?_, ?_, ?_, fun _ _ _ => rfl⟩
  · intro n st i st' v hp hg hlt h
    simp only [calcRelativePos, if_pos (And.intro hg hlt)] at h
    rw [hp] at h
    simp only [Option.some.injEq, Prod.mk.injEq] at h
    obtain ⟨-, hv⟩ := h
    rw [← hv]
    constructor <;> simp [modifyEnt_entities]
  · intro fuel st i val st2 hp h
    simp only [setLeft] at h
    rw [show ((modifyEnt st i fun d =>
        { d with pos := { d.pos with x := val } }).entities i).parent = none from by
      simp [modifyEnt_entities, hp]] at h
    simp at h
    subst h
    constructor <;> simp [modifyEnt_entities]
  · intro fuel st i val st2 hp h
    simp only [setTop] at h
    rw [show ((modifyEnt st i fun d =>
        { d with pos := { d.pos with y := val } }).entities i).parent = none from by
      simp [modifyEnt_entities, hp]] at h
    simp at h
    subst h
    constructor <;> simp [modifyEnt_entities]

theorem c5_parentless_sync_witness :
    (calcRelativePos 1 c6St 0).map (fun r => (r.2.x, r.2.y)) = some (4, 5) ∧
      (setLeft 1 baseSt 0 7).map
          (fun s => ((s.entities 0).relativePos.x, (s.entities 0).pos.x)) = some (7, 7) ∧
      (setTop 1 baseSt 0 8).map
          (fun s => ((s.entities 0).relativePos.y, (s.entities 0).pos.y)) = some (8, 8) ∧
      (mkEntity (6 : ℤ) 6 0).relativePos = (mkEntity (6 : ℤ) 6 0).pos := by
  refine ⟨?_, ?_, ?_, c5_parentless_sync.2.2.2 6 6 0⟩
  · cases hread : calcRelativePos 1 c6St 0 with
    | none =>
      exact absurd hread (Option.ne_none_iff_isSome.mpr (by decide))
    | some r =>
      obtain ⟨st', v⟩ := r
      obtain ⟨hx, hy⟩ := c5_parentless_sync.1 0 c6St 0 st' v rfl rfl (by decide) hread
      show some (v.x, v.y) = some (4, 5)
      rw [hx, hy]
      decide
  · cases hset : setLeft 1 baseSt 0 7 with
    | none =>
      exact absurd hset (Option.ne_none_iff_isSome.mpr (by decide))
    | some s2 =>
      obtain ⟨h1, h2⟩ := c5_parentless_sync.2.1 1 baseSt 0 7 s2 rfl hset
      show some ((s2.entities 0).relativePos.x, (s2.entities 0).pos.x) = some (7, 7)
      rw [h1, h2]
  · cases hset : setTop 1 baseSt 0 8 with
    | none =>
      exact absurd hset (Option.ne_none_iff_isSome.mpr (by decide))
    | some s2 =>
      obtain ⟨h1, h2⟩ := c5_parentless_sync.2.2.1 1 baseSt 0 8 s2 rfl hset
      show some ((s2.entities 0).relativePos.y, (s2.entities 0).pos.y) = some (8, 8)
      rw [h1, h2]

/-- Every child processed by a successful child fold gets its marker event
into the final trace, provided each step only appends to the trace and marks
its own entity. -/
theorem foldChain_mem {g : ℕ → Ev} (f : St K → ℕ → Option (St K))
    (hmono : ∀ s c s', f s c = some s' → ∃ t, s'.trace = s.trace ++ t)
    (hmark : ∀ s c s', f s c = some s' → g c ∈ s'.trace) :
    ∀ (cs : List ℕ) (st st' : St K),
      cs.foldl (fun r c => match r with | none => none | some s => f s c) (some st) = some st' →
      ∀ c ∈ cs, g c ∈ st'.trace := by
  intro cs
  induction cs with
  | nil => intro st st' h c hc; cases hc
  | cons c0 cs ih =>
    intro st st' h c hc
    simp only [List.foldl_cons] at h
    cases hfc : f st c0 with
    | none => rw [hfc] at h; rw [foldChain_none] at h; cases h
    | some s1 =>
      rw [hfc] at h
      rcases List.mem_cons.mp hc with hce | hcs
      · subst hce
        have hm := hmark st c s1 hfc
        obtain ⟨t, ht⟩ := foldChain_rel
          (P := fun a b => ∃ t, b.trace = a.trace ++ t)
          (fun s => ⟨[], by simp⟩)
          (fun a b d ⟨t1, h1⟩ ⟨t2, h2⟩ => ⟨t1 ++ t2, by rw [h2, h1, List.append_assoc]⟩)
          f hmono cs s1 st' h
        rw [ht]
        exact List.mem_append_left _ hm
      · exact ih s1 st' h c hcs

/-- C2 (corrected, amended claim).  For an entity with `display = false`:
the render hook is never invoked and nothing is rendered; when the entity
HAS a render hook, its children are not visited either (the whole subtree is
hidden, the call only logs the traversal entry); but when the entity has NO
render hook, the propagation test `typeof this.render === "undefined"`
succeeds and the children ARE still visited that frame. -/
theorem c2_hidden_parent :
    (∀ (n : ℕ) (st : St K) (i : ℕ) (r : TriVal) (st' : St K),
        (st.entities i).display = false →
        (st.entities i).renderHook = some r →
        renderEntity (n + 1) st i = some st' →
        st' = pushEv st (Ev.rvisit i)) ∧
    (∀ (n : ℕ) (st : St K) (i : ℕ) (st' : St K),
        (st.entities i).display = false →
        (st.entities i).renderHook = none →
        renderEntity (n + 2) st i = some st' →
        ∀ c ∈ (st.entities i).children, Ev.rvisit c ∈ st'.trace) := by
  constructor
  · intro n st i r st' hd hrh h
    simp only [renderEntity, pushEv_entities] at h
    rw [hd] at h
    simp [hrh] at h
    exact h.symm
  · intro n st i st' hd hrh h
    simp only [renderEntity, pushEv_entities] at h
    rw [hd] at h
    simp [hrh] at h
    intro c hc
    refine foldChain_mem (g := Ev.rvisit) (fun s c => renderEntity (n + 1) s c)
      (fun s c s' hh => (rnd_frame (n + 1) s c s' hh).2.2.2)
      (fun s c s' hh => rnd_rvisit n s c s' hh)
      _ _ _ h c ?_
    simpa using hc

/-- Concrete state for the C2 counterexample: entity 0 is invisible
(`display = false`) with no render hook and one child, entity 1, which has a
truthy render hook and a scene context. -/
def c2St : St ℤ :=
  setEnt (setEnt baseSt 0 { mkEntity 0 0 0 with display := false, children := [1] })
    1 { mkEntity 0 0 0 with renderHook := some TriVal.truthy, game := true }

/-- C2 counterexample.  The claim says an invisible entity's children are
never visited "regardless of whether a render hook is present".  Here the
invisible parent has NO render hook, and its child is visited and actually
renders: the child's hook invocation is logged and the render counter
increments. -/
theorem c2_counterexample :
    (renderEntity 2 c2St 0).map (fun s => (s.trace, s.scene.lastFrameTotalRenders)) =
        some ([Ev.rvisit 0, Ev.rvisit 1, Ev.rhook 1], 1) ∧
      Ev.rhook 1 ∈ [Ev.rvisit 0, Ev.rvisit 1, Ev.rhook 1] :=
  ⟨by decide, by decide⟩

/-- Concrete state for the C2 witness, first conjunct: an invisible entity
with a render hook and one child. -/
def c2StA : St ℤ :=
  setEnt baseSt 0
    { mkEntity 0 0 0 with
        display := false
        renderHook := some TriVal.truthy
        children := [1] }

theorem c2_hidden_parent_witness :
    renderEntity 1 c2StA 0 = some (pushEv c2StA (Ev.rvisit 0)) ∧
      (renderEntity 2 c2St 0).map (fun s => decide (Ev.rvisit 1 ∈ s.trace)) = some true := by
  constructor
  · cases hr : renderEntity 1 c2StA 0 with
    | none => exact absurd hr (Option.ne_none_iff_isSome.mpr (by decide))
    | some s =>
      rw [c2_hidden_parent.1 0 c2StA 0 TriVal.truthy s rfl rfl hr]
  · cases hr : renderEntity 2 c2St 0 with
    | none => exact absurd hr (Option.ne_none_iff_isSome.mpr (by decide))
    | some s =>
      have hm := c2_hidden_parent.2 0 c2St 0 s rfl rfl hr 1 (by decide)
      simp [hm]

/-- C3 (confirmed).  One `_updateEntity(delta)` call always runs the node's
own lifecycle/physics step first (through the `tick` entry).  When the
update hook exists and returns a defined falsy value, the call ends right
after invoking the hook: the final state is exactly the own-step result plus
the hook log, no child is visited, and the trace grows by precisely
`[tick i, uhook i]`.  When the hook is absent, or returns undefined or a
truthy value, every child present after the own step is visited (each child
gets its own `tick` into the trace). -/
theorem c3_update_propagation :
    (∀ (p15 : K → K) (n : ℕ) (st : St K) (i : ℕ) (delta : K) (st' : St K),
        (st.entities i).updateHook = some TriVal.falsy →
        updateEntity p15 (n + 1) st i delta = some st' →
        ∃ stOwn, ownStep p15 n (pushEv st (Ev.tick i)) i delta = some stOwn ∧
          st' = pushEv stOwn (Ev.uhook i) ∧
          st'.trace = st.trace ++ [Ev.tick i, Ev.uhook i]) ∧
    (∀ (p15 : K → K) (n : ℕ) (st : St K) (i : ℕ) (delta : K) (st' : St K),
        ((st.entities i).updateHook = none ∨
          (st.entities i).updateHook = some TriVal.truthy ∨
          (st.entities i).updateHook = some TriVal.undef) →
        updateEntity p15 (n + 2) st i delta = some st' →
        ∃ stOwn, ownStep p15 (n + 1) (pushEv st (Ev.tick i)) i delta = some stOwn ∧
          ∀ c ∈ (stOwn.entities i).children, Ev.tick c ∈ st'.trace) := by
  constructor
  · intro p15 n st i delta st' hhook h
    simp only [updateEntity] at h
    split at h
    · cases h
    · rename_i st1 h1
      obtain ⟨-, -, t1, e1, -⟩ := ownStep_frame p15 n _ i delta st1 h1
      have hh1 : (st1.entities i).updateHook = some TriVal.falsy := by
        have := congrArg EStable.updateHook (e1 i)
        simpa using this.trans (by simpa using hhook)
      rw [hh1] at h
      simp at h
      refine ⟨st1, h1, h.symm, ?_⟩
      rw [← h]
      simp only [pushEv_trace]
      rw [t1]
      simp
  · intro p15 n st i delta st' hhook h
    simp only [updateEntity] at h
    split at h
    · cases h
    · rename_i st1 h1
      obtain ⟨-, -, t1, e1, -⟩ := ownStep_frame p15 (n + 1) _ i delta st1 h1
      have hst : (st1.entities i).updateHook = (st.entities i).updateHook := by
        have := congrArg EStable.updateHook (e1 i)
        simpa using this
      have hmem : ∀ (st2 : St K), (st2.entities i).children = (st1.entities i).children →
          (st2.entities i).children.foldl
              (fun r c => match r with | none => none | some s => updateEntity p15 (n + 1) s c delta)
              (some st2) = some st' →
          ∀ c ∈ (st1.entities i).children, Ev.tick c ∈ st'.trace := by
        intro st2 hch hfold c hc
        refine foldChain_mem (g := Ev.tick) (fun s c => updateEntity p15 (n + 1) s c delta)
          (fun s c s' hh => (upd_frame p15 (n + 1) s c delta s' hh).2.2.1)
          (fun s c s' hh => upd_tick p15 n s c delta s' hh)
          _ _ _ hfold c ?_
        rw [hch]; exact hc
      rcases hhook with h0 | h0 | h0
      all_goals
        rw [hst.trans h0] at h
        simp at h
        exact ⟨st1, h1, hmem _ (by simp) h⟩

/-- Concrete state for the C3 witness, falsy-hook part: entity 0 has
velocity (2,0), a falsy update hook and one child, entity 1 at (7,7). -/
def c3St : St ℤ :=
  setEnt (setEnt baseSt 0
      { mkEntity 0 0 0 with
          velocity := { x := 2, y := 0 }
          updateHook := some TriVal.falsy
          children := [1] })
    1 (mkEntity 7 7 0)

/-- Concrete state for the C3 witness, truthy-hook part. -/
def c3StB : St ℤ :=
  setEnt (setEnt baseSt 0
      { mkEntity 0 0 0 with updateHook := some TriVal.truthy, children := [1] })
    1 (mkEntity 7 7 0)

theorem c3_update_propagation_witness :
    (updateEntity qPow15 2 c3St 0 1).map (fun s => s.trace) =
        some [Ev.tick 0, Ev.uhook 0] ∧
      (updateEntity qPow15 3 c3StB 0 1).map (fun s => decide (Ev.tick 1 ∈ s.trace)) =
        some true := by
  constructor
  · cases hr : updateEntity qPow15 2 c3St 0 1 with
    | none => exact absurd hr (Option.ne_none_iff_isSome.mpr (by decide))
    | some s =>
      obtain ⟨stOwn, -, -, htr⟩ := c3_update_propagation.1 qPow15 1 c3St 0 1 s rfl hr
      show some s.trace = some [Ev.tick 0, Ev.uhook 0]
      rw [htr]
      rfl
  · cases hr : updateEntity qPow15 3 c3StB 0 1 with
    | none => exact absurd hr (Option.ne_none_iff_isSome.mpr (by decide))
    | some s =>
      obtain ⟨stOwn, hown, hmem⟩ :=
        c3_update_propagation.2 qPow15 1 c3StB 0 1 s (Or.inr (Or.inl rfl)) hr
      have hch : (ownStep qPow15 2 (pushEv c3StB (Ev.tick 0)) 0 1).map
          (fun t => (t.entities 0).children) = some [1] := by decide
      rw [hown] at hch
      simp at hch
      have hmem1 := hmem 1 (by rw [hch]; exact List.mem_singleton_self 1)
      simp [hmem1]

/-- C10 (corrected, amended claim).  A visible entity whose render hook
returns truthy contributes exactly one increment to the scene's render
counter through its own render; with no children the whole call increments
the counter by exactly one (rendering descendants add their own increments —
see the counterexample).  If such an entity has no scene context, the
counter increment `this._game._lastFrameTotalRenders++` faults and the call
does not complete. -/
theorem c10_render_counter :
    (∀ (n : ℕ) (st : St K) (i : ℕ),
        (st.entities i).display = true →
        (st.entities i).renderHook = some TriVal.truthy →
        (st.entities i).game = true →
        (st.entities i).children = [] →
        renderEntity (n + 1) st i =
          some { pushEv (pushEv st (Ev.rvisit i)) (Ev.rhook i) with
                  scene := { frameCounter := st.scene.frameCounter
                             lastFrameTotalRenders := st.scene.lastFrameTotalRenders + 1 } }) ∧
    (∀ (n : ℕ) (st : St K) (i : ℕ),
        (st.entities i).display = true →
        (st.entities i).renderHook = some TriVal.truthy →
        (st.entities i).game = false →
        renderEntity (n + 1) st i = none) := by
  constructor
  · intro n st i hd hrh hg hch
    simp only [renderEntity, pushEv_entities]
    rw [hd, hrh, hg]
    simp [hch]
  · intro n st i hd hrh hg
    simp only [renderEntity, pushEv_entities]
    rw [hd, hrh, hg]
    simp

/-- Concrete state for the C10 counterexample: entity 0 (visible, truthy
render hook, scene attached) has one child, entity 1, which also renders. -/
def c10St : St ℤ :=
  setEnt (setEnt baseSt 0
      { mkEntity 0 0 0 with
          renderHook := some TriVal.truthy
          game := true
          children := [1] })
    1 { mkEntity 0 0 0 with renderHook := some TriVal.truthy, game := true }

/-- C10 counterexample.  The claim says renderEntity on a visible entity
with a truthy render hook increments the render counter by exactly one; with
a rendering child the call increments it by two. -/
theorem c10_counterexample :
    (renderEntity 2 c10St 0).map (fun s => s.scene.lastFrameTotalRenders) = some 2 ∧
      (2 : ℕ) ≠ 1 :=
  ⟨by decide, by decide⟩

/-- Concrete states for the C10 witness: a childless rendering entity with
a scene context (counter at 5), and the same entity without one. -/
def c10StW : St ℤ :=
  setEnt { baseSt with scene := { frameCounter := 0, lastFrameTotalRenders := 5 } } 0
    { mkEntity 0 0 0 with renderHook := some TriVal.truthy, game := true }

def c10StX : St ℤ :=
  setEnt baseSt 0 { mkEntity 0 0 0 with renderHook := some TriVal.truthy }

theorem c10_render_counter_witness :
    renderEntity 1 c10StW 0 =
        some { pushEv (pushEv c10StW (Ev.rvisit 0)) (Ev.rhook 0) with
                scene := { frameCounter := c10StW.scene.frameCounter
                           lastFrameTotalRenders := c10StW.scene.lastFrameTotalRenders + 1 } } ∧
      renderEntity 1 c10StX 0 = none :=
  ⟨c10_render_counter.1 0 c10StW 0 rfl rfl rfl rfl,
    c10_render_counter.2 0 c10StX 0 rfl rfl rfl⟩

/-- Removing the unique occurrence of an element leaves a list without it. -/
theorem removeFirst_not_mem :
    ∀ (l : List ℕ) (c : ℕ), l.count c = 1 → c ∉ (removeFirst l c).1 := by
  intro l
  induction l with
  | nil => intro c h hm; cases hm
  | cons x xs ih =>
    intro c h
    simp only [removeFirst]
    split
    · rename_i hx
      subst hx
      rw [List.count_cons_self] at h
      have h0 : xs.count x = 0 := by omega
      exact List.count_eq_zero.mp h0
    · rename_i hx
      rw [List.count_cons_of_ne (by intro hc; exact hx hc.symm)] at h
      intro hm
      rcases List.mem_cons.mp hm with he | hm2
      · exact hx he.symm
      · exact ih c h hm2

/-- Removing some other element does not affect membership. -/
theorem mem_removeFirst_of_ne :
    ∀ (l : List ℕ) (c e : ℕ), e ≠ c → (e ∈ (removeFirst l c).1 ↔ e ∈ l) := by
  intro l
  induction l with
  | nil => intro c e hne; simp [removeFirst]
  | cons x xs ih =>
    intro c e hne
    simp only [removeFirst]
    split
    · rename_i hx
      subst hx
      simp only [List.mem_cons]
      constructor
      · exact fun h => Or.inr h
      · rintro (he | hm)
        · exact absurd he hne
        · exact hm
    · simp only [List.mem_cons]
      rw [ih c e hne]

/-- The condition under which the timeToLive branch of `_updateEntity`
actually fires: a set, JS-truthy `timeToLive` strictly exceeded by the time
elapsed since construction. -/
def ExpiredCond (st : St K) (i : ℕ) : Prop :=
  ∃ t, (st.entities i).timeToLive = some t ∧ t ≠ 0 ∧
    st.now - (st.entities i).creationTime > t

/-- Expiry only depends on data an update traversal never writes. -/
theorem expired_frames {st st' : St K} {i : ℕ} (h : Frames st st') :
    ExpiredCond st' i ↔ ExpiredCond st i := by
  obtain ⟨-, hnow, -, hstab, -⟩ := h
  have httl : (st'.entities i).timeToLive = (st.entities i).timeToLive := by
    have := congrArg EStable.timeToLive (hstab i); simpa using this
  have hct : (st'.entities i).creationTime = (st.entities i).creationTime := by
    have := congrArg EStable.creationTime (hstab i); simpa using this
  simp only [ExpiredCond, httl, hct, hnow]

/-- With the expiry condition met and a parent present, the timeToLive step
is exactly the detach. -/
theorem ttlStep_expired (st : St K) (i p : ℕ) (hexp : ExpiredCond st i)
    (hp : (st.entities i).parent = some p) :
    ttlStep st i = some (detachChildEntity st p i).1 := by
  obtain ⟨t, ht, ht0, hgt⟩ := hexp
  simp [ttlStep, ht, ht0, hgt, hp]

/-- With the expiry condition met and no parent, the timeToLive step throws. -/
theorem ttlStep_expired_noparent (st : St K) (i : ℕ) (hexp : ExpiredCond st i)
    (hp : (st.entities i).parent = none) :
    ttlStep st i = none := by
  obtain ⟨t, ht, ht0, hgt⟩ := hexp
  simp [ttlStep, ht, ht0, hgt, hp]

/-- Without the expiry condition the timeToLive step is the identity. -/
theorem ttlStep_not_expired (st : St K) (i : ℕ) (hne : ¬ExpiredCond st i) :
    ttlStep st i = some st := by
  simp only [ttlStep]
  cases ht : (st.entities i).timeToLive with
  | none => rfl
  | some t =>
    by_cases ht0 : t ≠ 0
    · by_cases hgt : st.now - (st.entities i).creationTime > t
      · exact absurd ⟨t, ht, ht0, hgt⟩ hne
      · simp [ht0, hgt]
    · simp [ht0]

/-- As long as entity `e` is not expired, no update traversal ever removes
`e` from any child list (nor adds it to one): the only splice that could
remove it is `e`'s own timeToLive detach, and the expiry inputs are
invariant during the traversal. -/
theorem upd_mem_pres (p15 : K → K) (e : ℕ) :
    ∀ (fuel : ℕ) (st : St K) (j : ℕ) (delta : K) (st' : St K),
      updateEntity p15 fuel st j delta = some st' →
      ¬ExpiredCond st e →
      ∀ q, (e ∈ (st'.entities q).children ↔ e ∈ (st.entities q).children) := by
  intro fuel
  induction fuel with
  | zero => intro st j delta st' h; simp [updateEntity] at h
  | succ n ih =>
    intro st j delta st' h hne
    simp only [updateEntity] at h
    split at h
    · cases h
    · rename_i st1 h1
      -- The own step: the ttl detach can only splice out `j`, and `j = e`
      -- would contradict non-expiry; the physics part never touches lists.
      have hne0 : ¬ExpiredCond (pushEv st (Ev.tick j)) e := by
        simpa [ExpiredCond] using hne
      have step1 : ∀ q, e ∈ (st1.entities q).children ↔ e ∈ (st.entities q).children := by
        simp only [ownStep] at h1
        split at h1
        · cases h1
        · rename_i stA hA
          obtain ⟨-, -, -, -, hchp⟩ :=
            physStep_frame p15 n stA j delta st1 h1
          have hstep : ∀ q, e ∈ (stA.entities q).children ↔
              e ∈ ((pushEv st (Ev.tick j)).entities q).children := by
            by_cases hexp : ExpiredCond (pushEv st (Ev.tick j)) j
            · cases hp : ((pushEv st (Ev.tick j)).entities j).parent with
              | none => rw [ttlStep_expired_noparent _ j hexp hp] at hA; cases hA
              | some p0 =>
                rw [ttlStep_expired _ j p0 hexp hp] at hA
                have hje : e ≠ j := by
                  intro hej
                  exact hne0 (hej ▸ hexp)
                cases hA
                intro q
                simp only [detachChildEntity, modifyEnt_entities]
                by_cases hq : q = p0
                · subst hq
                  simp only [if_pos rfl]
                  exact mem_removeFirst_of_ne _ j e hje
                · simp only [if_neg hq]
            · rw [ttlStep_not_expired _ j hexp] at hA
              cases hA
              intro q; rfl
          intro q
          rw [hchp q, hstep q]
          rfl
      obtain ⟨sA, nA, tA, eA, cA⟩ :=
        ownStep_frame p15 n (pushEv st (Ev.tick j)) j delta st1 h1
      have hfr1 : Frames (pushEv st (Ev.tick j)) st1 :=
        ⟨sA, nA, ⟨[], by simp [tA]⟩, eA, cA⟩
      have hne1 : ¬ExpiredCond st1 e := fun hx => hne0 ((expired_frames hfr1).mp hx)
      have hfold : ∀ (cs : List ℕ) (a b : St K),
          cs.foldl (fun r c => match r with
            | none => none
            | some s => updateEntity p15 n s c delta) (some a) = some b →
          Frames a b ∧ (¬ExpiredCond a e →
            ∀ q, (e ∈ (b.entities q).children ↔ e ∈ (a.entities q).children)) := by
        intro cs a b hh
        refine foldChain_rel
          (P := fun a b => Frames a b ∧ (¬ExpiredCond a e →
            ∀ q, (e ∈ (b.entities q).children ↔ e ∈ (a.entities q).children)))
          (fun s => ⟨frames_refl s, fun _ _ => Iff.rfl⟩)
          (fun a b c hab hbc => ⟨frames_trans hab.1 hbc.1, fun hna q =>
            (hbc.2 (fun hxb => hna ((expired_frames hab.1).mp hxb)) q).trans (hab.2 hna q)⟩)
          (fun s c => updateEntity p15 n s c delta)
          (fun s c s' hh2 => ⟨upd_frame p15 n s c delta s' hh2,
            fun hns q => ih s c delta s' hh2 hns q⟩)
          cs a b hh
      cases hu : (st1.entities j).updateHook with
      | none =>
        simp only [hu] at h
        rw [if_pos (by simp)] at h
        intro q
        rw [(hfold _ _ _ h).2 hne1 q, step1 q]
      | some r =>
        simp only [hu] at h
        have hne2 : ¬ExpiredCond (pushEv st1 (Ev.uhook j)) e := hne1
        split at h
        · intro q
          rw [(hfold _ _ _ h).2 hne2 q]
          exact step1 q
        · cases h
          intro q
          exact step1 q

/-- C8 (corrected, amended claim).  Calling updateEntity on a node whose
timeToLive is set, truthy and strictly exceeded but which has no parent does
NOT degrade silently: `this._parent.detachChildEntity(this)` dereferences
the null parent, the call faults and the rest of the update (physics, hook,
children) never runs. -/
theorem c8_expired_no_parent_faults (p15 : K → K) (n : ℕ) (st : St K) (i : ℕ) (delta : K)
    (hexp : ExpiredCond st i) (hpar : (st.entities i).parent = none) :
    updateEntity p15 (n + 1) st i delta = none := by
  have h1 : ttlStep (pushEv st (Ev.tick i)) i = none :=
    ttlStep_expired_noparent _ i hexp hpar
  simp [updateEntity, ownStep, h1]

/-- Concrete state for the C8 counterexample and witness: a parentless
entity with timeToLive 3, created at time 0, updated at time 10. -/
def c8St : St ℤ :=
  setEnt { baseSt with now := 10 } 0 { mkEntity 0 0 0 with timeToLive := some 3 }

/-- C8 counterexample.  The claim says the expired-but-parentless update
does not raise and the rest of the update completes; on this concrete run
the call does not complete at all (the modelled TypeError). -/
theorem c8_counterexample : (updateEntity qPow15 2 c8St 0 1).isSome = false := by
  decide

theorem c8_expired_no_parent_faults_witness :
    updateEntity qPow15 1 c8St 0 1 = none :=
  c8_expired_no_parent_faults qPow15 0 c8St 0 1 ⟨3, rfl, by decide, by decide⟩ rfl

/-- C7 (corrected, amended claim).  A node with a set, nonzero (JS-truthy)
timeToLive `T` and a parent `p` holding it exactly once is removed from
`p`'s child list by an updateEntity call on it if and only if the current
time STRICTLY exceeds the node's construction time plus `T`: a call at
exactly `t0 + T` does not detach (the code tests `Date.now() - creationTime
> timeToLive`), and the reference time is the construction time, not the
attach time. -/
theorem c7_ttl_detach_strict (p15 : K → K) (n : ℕ) (st : St K) (e p : ℕ) (delta : K)
    (T : K) (st' : St K)
    (hT : (st.entities e).timeToLive = some T) (hT0 : T ≠ 0)
    (hpar : (st.entities e).parent = some p)
    (hcount : ((st.entities p).children).count e = 1)
    (h : updateEntity p15 (n + 1) st e delta = some st') :
    (e ∈ (st'.entities p).children ↔ ¬(st.now - (st.entities e).creationTime > T)) := by
  by_cases hgt : st.now - (st.entities e).creationTime > T
  · simp only [updateEntity] at h
    split at h
    · cases h
    · rename_i st1 h1
      have hexp : ExpiredCond (pushEv st (Ev.tick e)) e := ⟨T, hT, hT0, hgt⟩
      have hmemA : e ∉ (st1.entities p).children := by
        simp only [ownStep] at h1
        rw [ttlStep_expired _ e p hexp hpar] at h1
        obtain ⟨-, -, -, -, hch⟩ := physStep_frame p15 n _ e delta st1 h1
        rw [hch p]
        simp only [detachChildEntity, modifyEnt_entities, if_pos rfl]
        exact removeFirst_not_mem _ e hcount
      have hsub : (st'.entities p).children.Sublist (st1.entities p).children := by
        cases hu : (st1.entities e).updateHook with
        | none =>
          simp only [hu] at h
          rw [if_pos (by simp)] at h
          exact (foldChain_rel frames_refl (fun _ _ _ => frames_trans)
            (fun s c => updateEntity p15 n s c delta)
            (fun s c s' hh => upd_frame p15 n s c delta s' hh) _ _ _ h).2.2.2.2 p
        | some r =>
          simp only [hu] at h
          split at h
          · exact (foldChain_rel frames_refl (fun _ _ _ => frames_trans)
              (fun s c => updateEntity p15 n s c delta)
              (fun s c s' hh => upd_frame p15 n s c delta s' hh) _ _ _ h).2.2.2.2 p
          · cases h; exact List.Sublist.refl _
      exact iff_of_false (fun hm => hmemA (hsub.subset hm)) (not_not_intro hgt)
  · have hne : ¬ExpiredCond st e := by
      rintro ⟨t', ht', ht0', hgt'⟩
      rw [hT] at ht'
      cases ht'
      exact hgt hgt'
    have hmemS : e ∈ (st.entities p).children :=
      List.count_pos_iff_mem.mp (by omega)
    exact iff_of_true
      ((upd_mem_pres p15 e (n + 1) st e delta st' h hne p).mpr hmemS) hgt

/-- Concrete state for the C7 counterexample: entity 1 (timeToLive 2,
created at time 0) is the sole child of entity 0, and the clock stands at
exactly creation + timeToLive. -/
def c7St : St ℤ :=
  setEnt (setEnt { baseSt with now := 2 } 0 { mkEntity 0 0 0 with children := [1] })
    1 { mkEntity 0 0 0 with timeToLive := some 2, parent := some 0 }

/-- C7 counterexample.  The claim says the node detaches on the first
updateEntity call at or after `t0 + T`; at exactly `t0 + T` (clock 2,
timeToLive 2, created at 0) the code's strict comparison keeps it attached. -/
theorem c7_counterexample :
    (updateEntity qPow15 2 c7St 1 1).map (fun s => (s.entities 0).children) =
        some [1] ∧ ([1] : List ℕ) ≠ [] :=
  ⟨by decide, by decide⟩

theorem c7_ttl_detach_strict_witness :
    (updateEntity qPow15 1 c7St 1 1).map
          (fun s => decide (1 ∈ (s.entities 0).children)) = some true ∧
      (updateEntity qPow15 1 { c7St with now := 3 } 1 1).map
          (fun s => decide (1 ∈ (s.entities 0).children)) = some false := by
  constructor
  · cases hr : updateEntity qPow15 1 c7St 1 1 with
    | none => exact absurd hr (Option.ne_none_iff_isSome.mpr (by decide))
    | some s =>
      have hiff := c7_ttl_detach_strict qPow15 0 c7St 1 0 1 2 s rfl (by decide) rfl
        (by decide) hr
      have : (1 : ℕ) ∈ (s.entities 0).children := hiff.mpr (by decide)
      simp [this]
  · cases hr : updateEntity qPow15 1 { c7St with now := 3 } 1 1 with
    | none => exact absurd hr (Option.ne_none_iff_isSome.mpr (by decide))
    | some s =>
      have hiff := c7_ttl_detach_strict qPow15 0 { c7St with now := 3 } 1 0 1 2 s rfl
        (by decide) rfl (by decide) hr
      have : (1 : ℕ) ∉ (s.entities 0).children := by
        intro hm
        exact absurd (hiff.mp hm) (by decide)
      simp [this]

/-- pathN st n a b: a chain of exactly `n` child links leads from `a` to `b`. -/
def pathN (st : St K) : ℕ → ℕ → ℕ → Prop
  | 0, a, b => a = b
  | n + 1, a, b => ∃ c, c ∈ (st.entities a).children ∧ pathN st n c b

/-- The ownership invariant of the claim, over a finite set `dom` of live
entities: child lists stay inside `dom`, every entity appears in at most one
parent's child list (and at most once in it), and the child relation has no
cycles. -/
def TreeInv (st : St K) (dom : List ℕ) : Prop :=
  (∀ p ∈ dom, ∀ c ∈ (st.entities p).children, c ∈ dom) ∧
    (∀ p ∈ dom, ∀ q ∈ dom, ∀ c : ℕ,
      c ∈ (st.entities p).children → c ∈ (st.entities q).children → p = q) ∧
    (∀ p ∈ dom, ((st.entities p).children).Nodup) ∧
    (∀ a ∈ dom, ∀ n : ℕ, ¬ pathN st (n + 1) a a)

theorem pathN_concat (st : St K) :
    ∀ (m k : ℕ) (a b d : ℕ), pathN st m a b → pathN st k b d → pathN st (m + k) a d := by
  intro m
  induction m with
  | zero =>
    intro k a b d hab hbd
    cases hab
    simpa using hbd
  | succ m ih =>
    intro k a b d hab hbd
    obtain ⟨x, hx, hxb⟩ := hab
    have h2 : pathN st ((m + k) + 1) a d := ⟨x, hx, ih k x b d hxb hbd⟩
    have he : m + 1 + k = (m + k) + 1 := by omega
    rw [he]
    exact h2

theorem pathN_mono {st st' : St K}
    (hsub : ∀ j x, x ∈ (st'.entities j).children → x ∈ (st.entities j).children) :
    ∀ (n a b : ℕ), pathN st' n a b → pathN st n a b := by
  intro n
  induction n with
  | zero => intro a b h; exact h
  | succ n ih =>
    intro a b h
    obtain ⟨c, hc, hp⟩ := h
    exact ⟨c, hsub a c hc, ih c b hp⟩

/-- Sublist-shrinking every child list preserves the whole invariant. -/
theorem TreeInv_sublist {st st' : St K} {dom : List ℕ}
    (hsub : ∀ j, (st'.entities j).children.Sublist (st.entities j).children)
    (h : TreeInv st dom) : TreeInv st' dom := by
  obtain ⟨hclosed, huniq, hnodup, hacyc⟩ := h
  refine ⟨?_, ?_, ?_, ?_⟩
  · intro p hp c hc
    exact hclosed p hp c ((hsub p).subset hc)
  · intro p hp q hq c hcp hcq
    exact huniq p hp q hq c ((hsub p).subset hcp) ((hsub q).subset hcq)
  · intro p hp
    exact (hsub p).nodup (hnodup p hp)
  · intro a ha n hcyc
    exact hacyc a ha n (pathN_mono (fun j x hx => (hsub j).subset hx) (n + 1) a a hcyc)

/-- `_updateGame` writes only `_game` fields: every child list is preserved. -/
theorem updateGame_children :
    ∀ (fuel : ℕ) (st : St K) (i : ℕ) (g : Bool) (st' : St K),
      updateGame fuel st i g = some st' →
      ∀ j, (st'.entities j).children = (st.entities j).children := by
  intro fuel
  induction fuel with
  | zero => intro st i g st' h; simp [updateGame] at h
  | succ n ih =>
    intro st i g st' h j
    simp only [updateGame] at h
    have hstep : ∀ j, ((modifyEnt st i fun d => { d with game := g }).entities j).children =
        (st.entities j).children := by
      intro j
      by_cases hj : j = i
      · subst hj; simp [modifyEnt_entities]
      · simp [modifyEnt_entities, hj]
    have := foldChain_rel
      (P := fun a b => ∀ j, (b.entities j).children = (a.entities j).children)
      (fun s j => rfl) (fun a b c hab hbc j => (hbc j).trans (hab j))
      (fun s c => updateGame n s c g)
      (fun s c s' hh j => ih s c g s' hh j) _ _ _ h
    exact (this j).trans (hstep j)

/-- Core of the attach preservation: pushing `c` onto `p`'s child list keeps
the invariant when `c` is in no child list and `p` is not a descendant of
(or equal to) `c`.  The parent write on `c` is part of the operation but
touches no child list. -/
theorem attach_inv (st1 : St K) (dom : List ℕ) (p c : ℕ)
    (hinv : TreeInv st1 dom) (hp : p ∈ dom) (hc : c ∈ dom)
    (hfree : ∀ q, c ∉ (st1.entities q).children)
    (hnanc : ∀ n, ¬ pathN st1 n c p) :
    TreeInv (modifyEnt (modifyEnt st1 c fun d => { d with parent := some p })
      p fun d => { d with children := d.children ++ [c] }) dom := by
  obtain ⟨hclosed, huniq, hnodup, hacyc⟩ := hinv
  set st2 := modifyEnt (modifyEnt st1 c fun d => { d with parent := some p })
    p fun d => { d with children := d.children ++ [c] } with hst2
  have hch : ∀ j, (st2.entities j).children =
      if j = p then (st1.entities p).children ++ [c] else (st1.entities j).children := by
    intro j
    rw [hst2]
    by_cases hjp : j = p
    · subst hjp
      by_cases hjc : j = c
      · subst hjc
        simp [modifyEnt_entities]
      · simp [modifyEnt_entities, hjc]
    · by_cases hjc : j = c
      · subst hjc
        simp [modifyEnt_entities, hjp]
      · simp [modifyEnt_entities, hjp, hjc]
  have hpath : ∀ (n a b : ℕ), pathN st2 n a b →
      pathN st1 n a b ∨ ∃ j k, j + k < n ∧ pathN st1 j a p ∧ pathN st2 k c b := by
    intro n
    induction n with
    | zero => intro a b h; exact Or.inl h
    | succ n ih =>
      intro a b h
      obtain ⟨d, hd, hpp⟩ := h
      rw [hch a] at hd
      by_cases hap : a = p
      · subst hap
        rw [if_pos rfl] at hd
        rcases List.mem_append.mp hd with hdo | hdc
        · rcases ih d b hpp with hl | ⟨j, k, hlt, hjp, hkb⟩
          · exact Or.inl ⟨d, hdo, hl⟩
          · exact Or.inr ⟨j + 1, k, by omega, ⟨d, hdo, hjp⟩, hkb⟩
        · have hdc' : d = c := by simpa using hdc
          subst hdc'
          exact Or.inr ⟨0, n, by omega, rfl, hpp⟩
      · rw [if_neg hap] at hd
        rcases ih d b hpp with hl | ⟨j, k, hlt, hjp, hkb⟩
        · exact Or.inl ⟨d, hd, hl⟩
        · exact Or.inr ⟨j + 1, k, by omega, ⟨d, hd, hjp⟩, hkb⟩
  refine ⟨?_, ?_, ?_, ?_⟩
  · intro q hq x hx
    rw [hch q] at hx
    by_cases hqp : q = p
    · rw [if_pos hqp] at hx
      rcases List.mem_append.mp hx with hxo | hxc
      · exact hclosed p hp x hxo
      · have : x = c := by simpa using hxc
        exact this ▸ hc
    · rw [if_neg hqp] at hx
      exact hclosed q hq x hx
  · intro q1 h1 q2 h2 x hx1 hx2
    rw [hch q1] at hx1
    rw [hch q2] at hx2
    by_cases hq1 : q1 = p <;> by_cases hq2 : q2 = p
    · rw [hq1, hq2]
    · rw [if_pos hq1] at hx1
      rw [if_neg hq2] at hx2
      rcases List.mem_append.mp hx1 with hxo | hxc
      · exact (huniq p hp q2 h2 x hxo hx2).symm ▸ hq1
      · have : x = c := by simpa using hxc
        exact absurd hx2 (this ▸ hfree q2)
    · rw [if_neg hq1] at hx1
      rw [if_pos hq2] at hx2
      rcases List.mem_append.mp hx2 with hxo | hxc
      · exact (huniq q1 h1 p hp x hx1 hxo).trans hq2.symm
      · have : x = c := by simpa using hxc
        exact absurd hx1 (this ▸ hfree q1)
    · rw [if_neg hq1] at hx1
      rw [if_neg hq2] at hx2
      exact huniq q1 h1 q2 h2 x hx1 hx2
  · intro q hq
    rw [hch q]
    by_cases hqp : q = p
    · rw [if_pos hqp]
      rw [← List.concat_eq_append]
      exact (hnodup p hp).concat (hfree p)
    · rw [if_neg hqp]
      exact hnodup q hq
  · intro a ha n hcyc
    rcases hpath (n + 1) a a hcyc with hl | ⟨j, k, hlt, hjp, hkca⟩
    · exact hacyc a ha n hl
    · rcases hpath k c a hkca with hl2 | ⟨j', k', hlt', hj'cp, -⟩
      · exact hnanc (k + j) (pathN_concat st1 k j c a p hl2 hjp)
      · exact hnanc j' hj'cp

/-- Pointwise equal child lists transfer the invariant. -/
theorem TreeInv_congr {st st' : St K} {dom : List ℕ}
    (heq : ∀ j, (st'.entities j).children = (st.entities j).children)
    (h : TreeInv st dom) : TreeInv st' dom :=
  TreeInv_sublist (fun j => by rw [heq j]) h

/-- Pointwise equal child lists give the same paths. -/
theorem pathN_congr {st st' : St K}
    (heq : ∀ j, (st'.entities j).children = (st.entities j).children)
    (n a b : ℕ) : pathN st' n a b ↔ pathN st n a b :=
  ⟨pathN_mono (fun j x hx => (heq j) ▸ hx) n a b,
    pathN_mono (fun j x hx => (heq j).symm ▸ hx) n a b⟩

/-- C9 (corrected, amended claim).  The ownership invariant — every entity
in at most one parent's child list, at most once, and no cycles — is
preserved by detachChildEntity unconditionally, by createChildEntity when
the allocated node is fresh, and by addChildEntity only under the
preconditions that the attached node currently appears in no child list and
that the target is not the node itself or one of its descendants.  The
operations themselves do not enforce those preconditions (see the
counterexample: attaching an already-parented node puts it in two child
lists). -/
theorem c9_tree_invariant :
    (∀ (st : St K) (dom : List ℕ) (p c : ℕ),
        TreeInv st dom → TreeInv (detachChildEntity st p c).1 dom) ∧
    (∀ (fuel : ℕ) (st : St K) (dom : List ℕ) (p c : ℕ) (st' : St K),
        TreeInv st dom → p ∈ dom → c ∈ dom →
        (∀ q, c ∉ (st.entities q).children) →
        (∀ n, ¬ pathN st n c p) →
        addChildEntity fuel st p c = some st' →
        TreeInv st' dom) ∧
    (∀ (fuel : ℕ) (st : St K) (dom : List ℕ) (p fresh : ℕ) (st' : St K),
        TreeInv st dom → p ∈ dom → fresh ∉ dom →
        (∀ q, fresh ∉ (st.entities q).children) →
        createChildEntity fuel st p fresh = some st' →
        TreeInv st' (fresh :: dom)) := by
  refine ⟨?_, ?_, ?_⟩
  · intro st dom p c hinv
    apply TreeInv_sublist ?_ hinv
    intro j
    simp only [detachChildEntity, modifyEnt_entities]
    by_cases hj : j = p
    · subst hj
      simp only [if_pos rfl]
      show ((removeFirst (st.entities j).children c).1).Sublist (st.entities j).children
      exact removeFirst_sublist _ _
    · simp only [if_neg hj]
      exact List.Sublist.refl _
  · intro fuel st dom p c st' hinv hp hc hfree hnanc hadd
    simp only [addChildEntity] at hadd
    split at hadd
    · cases hadd
    · rename_i st1 hug
      have hcheq : ∀ j, (st1.entities j).children = (st.entities j).children :=
        updateGame_children fuel st c _ st1 hug
      simp only [Option.some.injEq] at hadd
      subst hadd
      refine attach_inv st1 dom p c (TreeInv_congr hcheq hinv) hp hc ?_ ?_
      · intro q
        rw [hcheq q]
        exact hfree q
      · intro n hn
        exact hnanc n ((pathN_congr hcheq n c p).mp hn)
  · intro fuel st dom p fresh st' hinv hp hfnd hfree hcr
    simp only [createChildEntity] at hcr
    split at hcr
    · cases hcr
    · rename_i st1 hug
      have hch0 : ∀ j, ((setEnt st fresh (mkEntity 0 0 st.now)).entities j).children =
          if j = fresh then [] else (st.entities j).children := by
        intro j
        by_cases hj : j = fresh
        · subst hj; simp [setEnt_entities, mkEntity]
        · simp [setEnt_entities, hj]
      have hinv0 : TreeInv (setEnt st fresh (mkEntity 0 0 st.now)) (fresh :: dom) := by
        obtain ⟨hclosed, huniq, hnodup, hacyc⟩ := hinv
        have hsubset : ∀ (j x : ℕ),
            x ∈ ((setEnt st fresh (mkEntity 0 0 st.now)).entities j).children →
            x ∈ (st.entities j).children := by
          intro j x hx
          rw [hch0 j] at hx
          by_cases hj : j = fresh
          · rw [if_pos hj] at hx; cases hx
          · rwa [if_neg hj] at hx
        refine ⟨?_, ?_, ?_, ?_⟩
        · intro q hq x hx
          rw [hch0 q] at hx
          by_cases hqf : q = fresh
          · rw [if_pos hqf] at hx; cases hx
          · rw [if_neg hqf] at hx
            rcases List.mem_cons.mp hq with he | hd
            · exact absurd he hqf
            · exact List.mem_cons_of_mem _ (hclosed q hd x hx)
        · intro q1 h1 q2 h2 x hx1 hx2
          rw [hch0 q1] at hx1
          rw [hch0 q2] at hx2
          by_cases hq1 : q1 = fresh
          · rw [if_pos hq1] at hx1; cases hx1
          · by_cases hq2 : q2 = fresh
            · rw [if_pos hq2] at hx2; cases hx2
            · rw [if_neg hq1] at hx1
              rw [if_neg hq2] at hx2
              rcases List.mem_cons.mp h1 with he1 | hd1
              · exact absurd he1 hq1
              · rcases List.mem_cons.mp h2 with he2 | hd2
                · exact absurd he2 hq2
                · exact huniq q1 hd1 q2 hd2 x hx1 hx2
        · intro q hq
          rw [hch0 q]
          by_cases hqf : q = fresh
          · rw [if_pos hqf]; exact List.nodup_nil
          · rw [if_neg hqf]
            rcases List.mem_cons.mp hq with he | hd
            · exact absurd he hqf
            · exact hnodup q hd
        · intro a ha n hcyc
          rcases List.mem_cons.mp ha with he | hd
          · subst he
            obtain ⟨d, hd2, -⟩ := hcyc
            rw [hch0 a, if_pos rfl] at hd2
            cases hd2
          · exact hacyc a hd n (pathN_mono hsubset (n + 1) a a hcyc)
      have hcheq : ∀ j, (st1.entities j).children =
          ((setEnt st fresh (mkEntity 0 0 st.now)).entities j).children :=
        updateGame_children fuel _ fresh _ st1 hug
      simp only [Option.some.injEq] at hcr
      subst hcr
      refine attach_inv st1 (fresh :: dom) p fresh (TreeInv_congr hcheq hinv0)
        (List.mem_cons_of_mem _ hp) (List.mem_cons_self _ _) ?_ ?_
      · intro q
        rw [hcheq q, hch0 q]
        by_cases hqf : q = fresh
        · rw [if_pos hqf]; exact List.not_mem_nil _
        · rw [if_neg hqf]; exact hfree q
      · intro n hn
        have hn0 := (pathN_congr hcheq n fresh p).mp hn
        cases n with
        | zero =>
          have : fresh = p := hn0
          exact hfnd (this ▸ hp)
        | succ m =>
          obtain ⟨d, hd, -⟩ := hn0
          rw [hch0 fresh, if_pos rfl] at hd
          cases hd

/-- C9 counterexample.  From a pristine state, `a.addChildEntity(c)` then
`b.addChildEntity(c)` puts entity 2 into the child lists of both entity 0
and entity 1 simultaneously: addChildEntity does not detach from the old
parent, so the claimed invariant is not preserved by every addChildEntity
call. -/
theorem c9_counterexample :
    ((addChildEntity 1 baseSt 0 2).bind (fun s => addChildEntity 1 s 1 2)).map
        (fun s => (decide (2 ∈ (s.entities 0).children),
          decide (2 ∈ (s.entities 1).children))) = some (true, true) ∧
      ((addChildEntity 1 baseSt 0 2).bind (fun s => addChildEntity 1 s 1 2)).elim True
        (fun s => ¬ TreeInv s [0, 1, 2]) := by
  constructor
  · decide
  · cases hr : (addChildEntity 1 baseSt 0 2).bind (fun s => addChildEntity 1 s 1 2) with
    | none => exact trivial
    | some s =>
      intro hinv
      have hmem : decide (2 ∈ (s.entities 0).children) = true ∧
          decide (2 ∈ (s.entities 1).children) = true := by
        have hd : ((addChildEntity 1 baseSt 0 2).bind (fun s => addChildEntity 1 s 1 2)).map
            (fun s => (decide (2 ∈ (s.entities 0).children),
              decide (2 ∈ (s.entities 1).children))) = some (true, true) := by decide
        rw [hr] at hd
        simp only [Option.map_some'] at hd
        exact Prod.mk.injEq .. ▸ Option.some.inj hd
      have h01 : (0 : ℕ) = 1 :=
        hinv.2.1 0 (by decide) 1 (by decide) 2
          (of_decide_eq_true hmem.1) (of_decide_eq_true hmem.2)
      cases h01

/-- Every heap cell of the pristine base state has an empty child list. -/
theorem baseSt_children (j : ℕ) : ((baseSt.entities j).children : List ℕ) = [] := rfl

/-- A state whose child lists are all empty satisfies the invariant. -/
theorem TreeInv_of_empty (st : St K) (dom : List ℕ)
    (h : ∀ j, (st.entities j).children = []) : TreeInv st dom := by
  refine ⟨?_, ?_, ?_, ?_⟩
  · intro p hp c hc
    rw [h p] at hc
    cases hc
  · intro p hp q hq c hcp
    rw [h p] at hcp
    cases hcp
  · intro p hp
    rw [h p]
    exact List.nodup_nil
  · intro a ha n hcyc
    obtain ⟨d, hd, -⟩ := hcyc
    rw [h a] at hd
    cases hd

theorem c9_tree_invariant_witness :
    TreeInv (detachChildEntity baseSt 0 5).1 ([0, 1] : List ℕ) ∧
      (addChildEntity 1 baseSt 0 1).elim False (fun s => TreeInv s [0, 1]) ∧
      (createChildEntity 1 baseSt 0 7).elim False (fun s => TreeInv s [7, 0, 1]) := by
  have hbase : ∀ (dom : List ℕ), TreeInv baseSt dom :=
    fun dom => TreeInv_of_empty baseSt dom baseSt_children
  have hnopath : ∀ (c p : ℕ), c ≠ p → ∀ n, ¬ pathN baseSt n c p := by
    intro c p hne n
    cases n with
    | zero => exact fun h => hne h
    | succ m =>
      rintro ⟨d, hd, -⟩
      rw [baseSt_children c] at hd
      cases hd
  refine ⟨c9_tree_invariant.1 baseSt [0, 1] 0 5 (hbase _), ?_, ?_⟩
  · cases hr : addChildEntity 1 baseSt 0 1 with
    | none => exact absurd hr (Option.ne_none_iff_isSome.mpr (by decide))
    | some s =>
      exact c9_tree_invariant.2.1 1 baseSt [0, 1] 0 1 s (hbase _) (by decide) (by decide)
        (fun q => by rw [baseSt_children q]; exact List.not_mem_nil _)
        (hnopath 1 0 (by decide)) hr
  · cases hr : createChildEntity 1 baseSt 0 7 with
    | none => exact absurd hr (Option.ne_none_iff_isSome.mpr (by decide))
    | some s =>
      exact c9_tree_invariant.2.2 1 baseSt [0, 1] 0 7 s (hbase _) (by decide) (by decide)
        (fun q => by rw [baseSt_children q]; exact List.not_mem_nil _) hr

/-- Real semantics of the JS `Math.pow(x, 1.5)` in `_calculateFields`. -/
noncomputable def realPow15 : ℝ → ℝ := fun x => Real.rpow x 1.5

/-- For a positive radicand, `x ^ 1.5` is the cube of its square root. -/
theorem rpow_three_halves {d : ℝ} (hd : 0 < d) :
    Real.rpow d 1.5 = Real.sqrt d ^ 3 := by
  show d ^ (1.5 : ℝ) = Real.sqrt d ^ 3
  rw [Real.sqrt_eq_rpow]
  rw [← Real.rpow_natCast (d ^ ((1 : ℝ) / 2)) 3]
  rw [← Real.rpow_mul hd.le]
  norm_num

/-- On a node whose child list is empty after its own step, one
`_updateEntity` call succeeds and leaves the node's velocity exactly as the
own step left it (the hook invocation and the empty child fold change no
entity). -/
theorem upd_leaf_velocity (p15 : K → K) (n : ℕ) (st : St K) (i : ℕ) (delta : K)
    (st1 : St K)
    (hown : ownStep p15 n (pushEv st (Ev.tick i)) i delta = some st1)
    (hch1 : (st1.entities i).children = []) :
    ∃ st', updateEntity p15 (n + 1) st i delta = some st' ∧
      (st'.entities i).velocity = (st1.entities i).velocity := by
  simp only [updateEntity, hown]
  cases hu : (st1.entities i).updateHook with
  | none =>
    simp only [hu]
    rw [if_pos (by simp)]
    rw [hch1]
    simp only [List.foldl_nil]
    exact ⟨st1, rfl, rfl⟩
  | some r =>
    simp only [hu]
    by_cases hcond : r = TriVal.truthy ∨ r = TriVal.undef ∨ (some r : Option TriVal) = none
    · rw [if_pos hcond]
      rw [show ((pushEv st1 (Ev.uhook i)).entities i).children = ([] : List ℕ) from hch1]
      simp only [List.foldl_nil]
      exact ⟨pushEv st1 (Ev.uhook i), rfl, rfl⟩
    · rw [if_neg hcond]
      exact ⟨pushEv st1 (Ev.uhook i), rfl, rfl⟩

/-- Base state over `ℝ` for the C1 scenario. -/
noncomputable def baseStR : St ℝ :=
  { entities := fun _ => mkEntity 0 0 0
    scene := { frameCounter := 0, lastFrameTotalRenders := 0 }
    now := 0
    trace := [] }

/-- Concrete state for the C1 counterexample: entity 0 at the origin with
zero velocity and one field, entity 1, of mass 1 at relative offset (1,0). -/
noncomputable def c1St : St ℝ :=
  setEnt (setEnt baseStR 0 { mkEntity 0 0 0 with fields := [1] })
    1 { mkEntity 1 0 0 with mass := 1 }

/-- Concrete state for the C1 witness (field-force half): entity 0 at the
origin moving at (3,4) with one field, entity 1, of mass 1 at relative
offset (1,0). -/
noncomputable def c1StW : St ℝ :=
  setEnt
    (setEnt baseStR 0
      { mkEntity 0 0 0 with
        fields := [1]
        velocity := { x := 3, y := 4 } })
    1 { mkEntity 1 0 0 with mass := 1 }

/-- C1 counterexample.  With zero initial velocity the physics block of
`_updateEntity` is skipped entirely, so after one tick the velocity is still
(0,0) — not the claimed `(D/|D|)·(M/|D|²)·delta`, which at D = (1,0), M = 1,
delta = 1 equals (1,0). -/
theorem c1_counterexample :
    (updateEntity realPow15 2 c1St 0 1).map (fun s => (s.entities 0).velocity) =
        some { x := 0, y := 0 } ∧
      ({ x := 0, y := 0 } : Vec2 ℝ) ≠ { x := 1, y := 0 } := by
  constructor
  · have hne : ¬ExpiredCond c1St 0 := by
      rintro ⟨t, ht, -⟩
      rw [show (c1St.entities 0).timeToLive = none from rfl] at ht
      cases ht
    have httlstep : ttlStep (pushEv c1St (Ev.tick 0)) 0 = some (pushEv c1St (Ev.tick 0)) :=
      ttlStep_not_expired _ 0 hne
    have hv : ((pushEv c1St (Ev.tick 0)).entities 0).velocity = { x := 0, y := 0 } := rfl
    have hphys : physStep realPow15 1 (pushEv c1St (Ev.tick 0)) 0 1 =
        some (pushEv c1St (Ev.tick 0)) := by
      simp only [physStep]
      rw [if_neg (by rw [hv]; simp)]
    simp only [updateEntity, ownStep, httlstep, hphys]
    rw [show ((pushEv c1St (Ev.tick 0)).entities 0).updateHook = none from rfl]
    rfl
  · intro h
    have := congrArg Vec2.x h
    simp at this

/-- C1 (corrected, amended claim).  The zero-velocity gate of
`_updateEntity` skips field accumulation entirely: an entity with zero
initial velocity still has velocity (0,0) after the tick.  For an entity
with NONZERO initial velocity v, zero stored acceleration and exactly one
field of mass M at fixed nonzero relative offset D (no scene context, so the
cached relative positions are what the force computation reads), one
`updateEntity(delta)` yields velocity exactly
`v + (D/|D|)·(M/|D|²)·delta`, the inverse-square force integrated over
delta, under real-number semantics of `Math.pow`. -/
theorem c1_field_force :
    (∀ (n : ℕ) (st : St ℝ) (i : ℕ) (delta : ℝ) (st' : St ℝ),
        (st.entities i).timeToLive = none →
        (st.entities i).children = [] →
        (st.entities i).velocity = { x := 0, y := 0 } →
        updateEntity realPow15 (n + 1) st i delta = some st' →
        (st'.entities i).velocity = { x := 0, y := 0 }) ∧
    (∀ (n : ℕ) (st : St ℝ) (i f : ℕ) (delta M : ℝ) (D : Vec2 ℝ),
        (st.entities i).game = false →
        (st.entities f).game = false →
        (st.entities i).fields = [f] →
        (st.entities i).timeToLive = none →
        (st.entities i).children = [] →
        (st.entities i).acceleration = { x := 0, y := 0 } →
        (st.entities f).mass = M →
        (st.entities f).relativePos.x - (st.entities i).relativePos.x = D.x →
        (st.entities f).relativePos.y - (st.entities i).relativePos.y = D.y →
        ¬((st.entities i).velocity.x = 0 ∧ (st.entities i).velocity.y = 0) →
        ¬(D.x = 0 ∧ D.y = 0) →
        (updateEntity realPow15 (n + 2) st i delta).map (fun s => (s.entities i).velocity) =
          some { x := (st.entities i).velocity.x +
                    D.x / Real.sqrt (D.dot D) * (M / Real.sqrt (D.dot D) ^ 2) * delta
                 y := (st.entities i).velocity.y +
                    D.y / Real.sqrt (D.dot D) * (M / Real.sqrt (D.dot D) ^ 2) * delta }) := by
  constructor
  · intro n st i delta st' httl hch hv0 hupd
    have hne : ¬ExpiredCond st i := by
      rintro ⟨t, ht, -⟩
      rw [httl] at ht
      cases ht
    have httlstep : ttlStep (pushEv st (Ev.tick i)) i = some (pushEv st (Ev.tick i)) :=
      ttlStep_not_expired _ i hne
    have hphys : physStep realPow15 n (pushEv st (Ev.tick i)) i delta =
        some (pushEv st (Ev.tick i)) := by
      simp only [physStep]
      rw [if_neg (by
        rw [show ((pushEv st (Ev.tick i)).entities i).velocity = { x := 0, y := 0 } from hv0]
        simp)]
    simp only [updateEntity, ownStep, httlstep, hphys] at hupd
    cases hu : ((pushEv st (Ev.tick i)).entities i).updateHook with
    | none =>
      rw [hu] at hupd
      simp only at hupd
      rw [if_pos (by simp)] at hupd
      rw [show ((pushEv st (Ev.tick i)).entities i).children = ([] : List ℕ) from hch] at hupd
      simp only [List.foldl_nil, Option.some.injEq] at hupd
      rw [← hupd]
      exact hv0
    | some r =>
      rw [hu] at hupd
      simp only at hupd
      split at hupd
      · rw [show ((pushEv (pushEv st (Ev.tick i)) (Ev.uhook i)).entities i).children =
            ([] : List ℕ) from hch] at hupd
        simp only [List.foldl_nil, Option.some.injEq] at hupd
        rw [← hupd]
        exact hv0
      · simp only [Option.some.injEq] at hupd
        rw [← hupd]
        exact hv0
  · intro n st i f delta M D hgE hgF hfld httl hch hacc hM hDx hDy hv hD
    have hne : ¬ExpiredCond st i := by
      rintro ⟨t, ht, -⟩
      rw [httl] at ht
      cases ht
    have httlstep : ttlStep (pushEv st (Ev.tick i)) i = some (pushEv st (Ev.tick i)) :=
      ttlStep_not_expired _ i hne
    have hci : calcRelativePos (n + 1) (pushEv st (Ev.tick i)) i =
        some (pushEv st (Ev.tick i), ((pushEv st (Ev.tick i)).entities i).relativePos) :=
      calc_noGame n _ i hgE
    have hcf : calcRelativePos (n + 1) (pushEv st (Ev.tick i)) f =
        some (pushEv st (Ev.tick i), ((pushEv st (Ev.tick i)).entities f).relativePos) :=
      calc_noGame n _ f hgF
    have hvor : ((pushEv st (Ev.tick i)).entities i).velocity.x ≠ 0 ∨
        ((pushEv st (Ev.tick i)).entities i).velocity.y ≠ 0 := by
      rcases not_and_or.mp hv with h | h
      · exact Or.inl h
      · exact Or.inr h
    have hd0 : (0 : ℝ) < D.x * D.x + D.y * D.y := by
      rcases not_and_or.mp hD with h | h
      · have hx : 0 < D.x * D.x := mul_self_pos.mpr h
        nlinarith [mul_self_nonneg D.y]
      · have hy : 0 < D.y * D.y := mul_self_pos.mpr h
        nlinarith [mul_self_nonneg D.x]
    have hr0 : (0 : ℝ) < Real.sqrt (D.x * D.x + D.y * D.y) := Real.sqrt_pos.mpr hd0
    have haccx : (st.entities i).acceleration.x = 0 := by rw [hacc]
    have haccy : (st.entities i).acceleration.y = 0 := by rw [hacc]
    have hown : ∃ st1, ownStep realPow15 (n + 1) (pushEv st (Ev.tick i)) i delta = some st1 ∧
        (st1.entities i).velocity =
          { x := (st.entities i).velocity.x +
              D.x * (M / realPow15 (D.x * D.x + D.y * D.y)) * delta
            y := (st.entities i).velocity.y +
              D.y * (M / realPow15 (D.x * D.x + D.y * D.y)) * delta } ∧
        (st1.entities i).children = [] := by
      simp only [ownStep, httlstep, physStep]
      rw [if_pos hvor]
      simp only [calculateFields, pushEv_entities, hfld, fieldLoop, hci, hcf, List.foldl_nil]
      simp only [Vec2.add, Vec2.mul, Vec2.dot, pushEv_entities, hM, hDx, hDy]
      refine ⟨_, rfl, ?_, ?_⟩
      · simp only [modifyEnt_entities, if_pos rfl]
        rw [Vec2.mk.injEq]
        constructor
        · show (st.entities i).velocity.x + _ = _
          rw [haccx]
          ring
        · show (st.entities i).velocity.y + _ = _
          rw [haccy]
          ring
      · simp only [modifyEnt_entities, if_pos rfl]
        exact hch
    obtain ⟨st1, hown1, hv1, hc1⟩ := hown
    obtain ⟨st', hupd, hvel⟩ := upd_leaf_velocity realPow15 (n + 1) st i delta st1 hown1 hc1
    rw [hupd]
    show some ((st'.entities i).velocity) = _
    rw [hvel, hv1]
    have hpow : realPow15 (D.x * D.x + D.y * D.y) =
        Real.sqrt (D.x * D.x + D.y * D.y) ^ 3 := rpow_three_halves hd0
    have hdotd : (D.dot D) = D.x * D.x + D.y * D.y := rfl
    have hrne : Real.sqrt (D.x * D.x + D.y * D.y) ≠ 0 := ne_of_gt hr0
    simp only [Option.some.injEq, Vec2.mk.injEq, hdotd, hpow]
    have h2 : Real.sqrt (D.x * D.x + D.y * D.y) ^ 2 = D.x ^ 2 + D.y ^ 2 := by
      rw [show D.x * D.x + D.y * D.y = D.x ^ 2 + D.y ^ 2 from by ring]
      exact Real.sq_sqrt (by positivity)
    constructor
    · field_simp
      linear_combination (-(Real.sqrt (D.x * D.x + D.y * D.y) * D.x * M * delta)) * h2
    · field_simp
      linear_combination (-(Real.sqrt (D.x * D.x + D.y * D.y) * D.y * M * delta)) * h2

/-- Witness for C1: the zero-velocity half at `baseStR` (entity 0, one tick),
and the field-force half at `c1StW` (entity 0 moving at (3,4) with the unit
field entity 1 at relative offset (1,0)). -/
theorem c1_field_force_witness :
    ((baseStR.entities 0).timeToLive = none ∧
     (baseStR.entities 0).children = [] ∧
     (baseStR.entities 0).velocity = { x := 0, y := 0 } ∧
     updateEntity realPow15 1 baseStR 0 1 = some (pushEv baseStR (Ev.tick 0)) ∧
     ((pushEv baseStR (Ev.tick 0)).entities 0).velocity = { x := 0, y := 0 }) ∧
    ((c1StW.entities 0).game = false ∧
     (c1StW.entities 1).game = false ∧
     (c1StW.entities 0).fields = [1] ∧
     (c1StW.entities 0).timeToLive = none ∧
     (c1StW.entities 0).children = [] ∧
     (c1StW.entities 0).acceleration = { x := 0, y := 0 } ∧
     (c1StW.entities 1).mass = 1 ∧
     (c1StW.entities 1).relativePos.x - (c1StW.entities 0).relativePos.x =
        ({ x := 1, y := 0 } : Vec2 ℝ).x ∧
     (c1StW.entities 1).relativePos.y - (c1StW.entities 0).relativePos.y =
        ({ x := 1, y := 0 } : Vec2 ℝ).y ∧
     ¬((c1StW.entities 0).velocity.x = 0 ∧ (c1StW.entities 0).velocity.y = 0) ∧
     ¬(({ x := 1, y := 0 } : Vec2 ℝ).x = 0 ∧ ({ x := 1, y := 0 } : Vec2 ℝ).y = 0) ∧
     (updateEntity realPow15 2 c1StW 0 1).map (fun s => (s.entities 0).velocity) =
       some { x := (c1StW.entities 0).velocity.x +
                 ({ x := 1, y := 0 } : Vec2 ℝ).x /
                     Real.sqrt (({ x := 1, y := 0 } : Vec2 ℝ).dot { x := 1, y := 0 }) *
                   (1 / Real.sqrt (({ x := 1, y := 0 } : Vec2 ℝ).dot { x := 1, y := 0 }) ^ 2) * 1
              y := (c1StW.entities 0).velocity.y +
                 ({ x := 1, y := 0 } : Vec2 ℝ).y /
                     Real.sqrt (({ x := 1, y := 0 } : Vec2 ℝ).dot { x := 1, y := 0 }) *
                   (1 / Real.sqrt (({ x := 1, y := 0 } : Vec2 ℝ).dot { x := 1, y := 0 }) ^ 2) * 1 }) := by
  have h1 : (baseStR.entities 0).timeToLive = none := rfl
  have h2 : (baseStR.entities 0).children = [] := rfl
  have h3 : (baseStR.entities 0).velocity = ({ x := 0, y := 0 } : Vec2 ℝ) := rfl
  have h4 : updateEntity realPow15 1 baseStR 0 1 = some (pushEv baseStR (Ev.tick 0)) := by
    have hne : ¬ExpiredCond baseStR 0 := by
      rintro ⟨t, ht, -⟩
      rw [show (baseStR.entities 0).timeToLive = none from rfl] at ht
      cases ht
    have httlstep : ttlStep (pushEv baseStR (Ev.tick 0)) 0 = some (pushEv baseStR (Ev.tick 0)) :=
      ttlStep_not_expired _ 0 hne
    have hphys : physStep realPow15 0 (pushEv baseStR (Ev.tick 0)) 0 1 =
        some (pushEv baseStR (Ev.tick 0)) := by
      simp only [physStep]
      rw [if_neg (by
        rw [show ((pushEv baseStR (Ev.tick 0)).entities 0).velocity =
            ({ x := 0, y := 0 } : Vec2 ℝ) from rfl]
        simp)]
    simp only [updateEntity, ownStep, httlstep, hphys]
    rw [show ((pushEv baseStR (Ev.tick 0)).entities 0).updateHook = none from rfl]
    rfl
  have g1 : (c1StW.entities 0).game = false := rfl
  have g2 : (c1StW.entities 1).game = false := rfl
  have g3 : (c1StW.entities 0).fields = [1] := rfl
  have g4 : (c1StW.entities 0).timeToLive = none := rfl
  have g5 : (c1StW.entities 0).children = [] := rfl
  have g6 : (c1StW.entities 0).acceleration = ({ x := 0, y := 0 } : Vec2 ℝ) := rfl
  have g7 : (c1StW.entities 1).mass = 1 := rfl
  have g8 : (c1StW.entities 1).relativePos.x - (c1StW.entities 0).relativePos.x =
      ({ x := 1, y := 0 } : Vec2 ℝ).x := by
    show (1 : ℝ) - 0 = 1
    norm_num
  have g9 : (c1StW.entities 1).relativePos.y - (c1StW.entities 0).relativePos.y =
      ({ x := 1, y := 0 } : Vec2 ℝ).y := by
    show (0 : ℝ) - 0 = 0
    norm_num
  have g10 : ¬((c1StW.entities 0).velocity.x = 0 ∧ (c1StW.entities 0).velocity.y = 0) := by
    intro h
    have h3' : (3 : ℝ) = 0 := h.1
    norm_num at h3'
  have g11 : ¬(({ x := 1, y := 0 } : Vec2 ℝ).x = 0 ∧ ({ x := 1, y := 0 } : Vec2 ℝ).y = 0) := by
    intro h
    have h1' : (1 : ℝ) = 0 := h.1
    norm_num at h1'
  exact ⟨⟨h1, h2, h3, h4, c1_field_force.1 0 baseStR 0 1 _ h1 h2 h3 h4⟩,
    g1, g2, g3, g4, g5, g6, g7, g8, g9, g10, g11,
    c1_field_force.2 0 c1StW 0 1 1 1 { x := 1, y := 0 } g1 g2 g3 g4 g5 g6 g7 g8 g9 g10 g11⟩

end Momentum
